import Mathlib

/-!
Verification development for the statement-extraction quality gate, the
tiered retry controller and the hierarchical aggregation engine of the
financial-statement processing repository.

The embedding follows the Python sources:
  * financial_processor/utils/quality_checks.py   (quality gate, sanitizer)
  * financial_processor/utils/data_combiner.py    (hierarchical aggregator)
  * financial_processor/agents/statement_parser_agent.py and
    financial_processor/utils/statement_processor.py (retry controller)

Modelling conventions:
  * Python floats are modelled as rationals; machine rounding is outside the
    scope of the claims, which concern the summation/filtering logic.
  * Python dicts used as string-keyed maps are modelled either as association
    lists (when iteration order is observable) or as functions to Option
    (Python dict equality ignores key order, so extensional equality of such
    functions matches dict equality).
  * The raw statement text reaches quality_gate only through the two helper
    functions _extract_possible_cardholders and _source_signals; we model a
    raw text by the pair of their results (RawFeat below).  Universal claims
    about all raw texts become universal claims over all feature values.
  * Values that the code only probes with isinstance checks are modelled by
    inductives with a constructor per relevant shape; a Nat tag keeps the
    distinct malformed values distinguishable.
-/

namespace FinProc

/- ### Character-level text helpers

Python string primitives used by quality_checks.py (str.strip, str.lower,
substring containment, the date regex) are modelled on explicit character
lists.  Unicode subtleties of str.strip / str.lower / the regex class \d are
outside every claim; ASCII semantics are used. -/

/-- Strip whitespace from both ends, modelling Python str.strip(). -/
def trimChars (cs : List Char) : List Char :=
  ((cs.dropWhile Char.isWhitespace).reverse.dropWhile Char.isWhitespace).reverse

/-- Lower-case a character list, modelling Python str.lower(). -/
def lowerChars (cs : List Char) : List Char := cs.map Char.toLower

/-- Python desc.strip().lower() as a character list. -/
def lowerTrim (s : String) : List Char := lowerChars (trimChars s.toList)

/-- Boolean test that needle is an initial segment of hay. -/
def leadsList : List Char → List Char → Bool
  | [], _ => true
  | _ :: _, [] => false
  | a :: as, b :: bs => a == b && leadsList as bs

/-- Boolean substring containment, modelling Python needle in hay. -/
def containsList (needle : List Char) : List Char → Bool
  | [] => needle.isEmpty
  | c :: rest => leadsList needle (c :: rest) || containsList needle rest

/-- Split a character list at every occurrence of sep, modelling
Python-style splitting: the result always has one more part than there are
separators. -/
def splitOnChar (sep : Char) : List Char → List (List Char)
  | [] => [[]]
  | c :: rest =>
    let r := splitOnChar sep rest
    if c == sep then [] :: r
    else
      match r with
      | [] => [[c]]
      | h :: t => (c :: h) :: t

/-- Boolean test that every character is an ASCII digit. -/
def allDigits (cs : List Char) : Bool := cs.all Char.isDigit

/- ### quality_checks.py helpers -/

/-- Date validator _valid_date from quality_checks.py: the stripped string
must match the anchored regex digit{1,2}/digit{1,2}(/digit{2,4})?.  The
regex is expressed by splitting on the slash character: two or three runs of
digits with the length bounds of the regex. -/
def valid_date (s : String) : Bool :=
  match splitOnChar '/' (trimChars s.toList) with
  | [a, b] =>
    allDigits a && allDigits b &&
      decide (1 ≤ a.length ∧ a.length ≤ 2 ∧ 1 ≤ b.length ∧ b.length ≤ 2)
  | [a, b, c] =>
    allDigits a && allDigits b && allDigits c &&
      decide (1 ≤ a.length ∧ a.length ≤ 2 ∧ 1 ≤ b.length ∧ b.length ≤ 2 ∧
              2 ≤ c.length ∧ c.length ≤ 4)
  | _ => false

/-- Amount value as seen by _valid_amount: either float(v) succeeds with a
finite value q, or it fails / is non-finite (absent key, None, a
non-numeric string, NaN or infinity all behave identically downstream). -/
inductive AmtVal where
  | num (q : ℚ)
  | nonnum
deriving DecidableEq, Repr

/-- Amount validator _valid_amount from quality_checks.py: coercible to a
finite float, nonzero, magnitude below 1e8. -/
def valid_amount : AmtVal → Bool
  | .num q => decide (q ≠ 0 ∧ |q| < 100000000)
  | .nonnum => false

/-- Fixed heading/boilerplate snippet list of _is_heading_like. -/
def heading_snippets : List String :=
  ["summary", "amount", "description", "sale", "post", "fees charged",
   "interest charged", "rewards", "total", "card by", "billing inquiries",
   "customer service", "minimum payment", "payment due date", "credit limit"]

/-- Heading detector _is_heading_like from quality_checks.py: the stripped,
lower-cased text is heading-like when its length is below 3 or when it
contains one of the fixed snippets. -/
def is_heading_like (desc : String) : Bool :=
  let txt := lowerTrim desc
  if txt.length < 3 then true
  else heading_snippets.any (fun sn => containsList sn.toList txt)

/- ### Data model of a candidate parse (gate side) -/

/-- Transaction record of a candidate parse, restricted to the fields the
quality gate reads.  The code coerces the three text fields with str(...);
they are modelled as strings directly. -/
structure TxRec where
  sale_date : String := ""
  post_date : String := ""
  description : String := ""
  amount : AmtVal := .nonnum
deriving DecidableEq, Repr

/-- Entry of a holder transaction list: a dict-shaped record or any
non-dict value (tagged). -/
inductive TxEntry where
  | tx (t : TxRec)
  | nondict (tag : Nat)
deriving DecidableEq, Repr

/-- Value attached to a holder key: a list of entries or a non-list value. -/
inductive TxsVal where
  | lst (l : List TxEntry)
  | notlist (tag : Nat)
deriving DecidableEq, Repr

/-- Value of the transactions_by_cardholder key: a dict (association list in
insertion order, keys unique in any value Python can build) or a non-dict
value. -/
inductive TxField where
  | dictF (m : List (String × TxsVal))
  | nondictF (tag : Nat)
deriving DecidableEq, Repr

/-- Summary field value as seen by the numeric-coercion loop of the gate:
absent key, None or empty string (skipped), a float-coercible value, or a
value on which float(...) raises (tagged). -/
inductive SField where
  | missing
  | nullOrEmpty
  | fnum (q : ℚ)
  | badval (tag : Nat)
deriving DecidableEq, Repr

/-- Summary dict of a candidate parse, restricted to the five keys the gate
coerces; all other keys are left untouched by the gate and are omitted. -/
structure GSummary where
  previous_balance : SField := .missing
  new_balance : SField := .missing
  payments : SField := .missing
  credits : SField := .missing
  purchases : SField := .missing
deriving DecidableEq, Repr

/-- Value of the summary key of a candidate parse. -/
inductive SummaryField where
  | sAbsent
  | sDict (g : GSummary)
  | sNonDict (tag : Nat)
deriving DecidableEq, Repr

/-- Dict-shaped candidate parse. -/
structure Parsed where
  txField : Option TxField := none
  summary : SummaryField := .sAbsent
deriving DecidableEq, Repr

/-- Candidate value handed to the gate: a dict or any non-dict value. -/
inductive JsonCand where
  | notDict (tag : Nat)
  | obj (p : Parsed)
deriving DecidableEq, Repr

/- ### Raw-text features -/

/-- Signal set produced by _source_signals. -/
structure Signals where
  has_brand : Bool := false
  has_structure : Bool := false
  has_last4 : Bool := false
  date_hits : Nat := 0
  money_hits : Nat := 0
deriving DecidableEq, Repr

/-- Features of a raw statement text.  quality_gate reads the raw text only
through _extract_possible_cardholders (a set of names, modelled as the list
of its elements) and _source_signals; a raw text is modelled by that pair. -/
structure RawFeat where
  allowed_names : List String := []
  sig : Signals := {}
deriving DecidableEq, Repr

/- ### Strictness knobs -/

/-- Strictness knobs chosen from the three parallel arrays of
quality_gate, indexed by the clamped retry level. -/
structure Knobs where
  min_date_hits : Nat
  min_money_hits : Nat
  require_both_dates : Bool
  require_known_holder : Bool
deriving DecidableEq, Repr

/-- Clamped level: max(0, min(2, int(retry_level))). -/
def levelOf (retry_level : Int) : Nat := (max 0 (min 2 retry_level)).toNat

/-- Knob arrays [5,3,2], [3,2,1], [True,True,False], [True,False,False]. -/
def knobsOf : Nat → Knobs
  | 0 => ⟨5, 3, true, true⟩
  | 1 => ⟨3, 2, true, false⟩
  | _ => ⟨2, 1, false, false⟩

/- ### Transaction sanitization (inner loop of quality_gate, lines 66-81) -/

/-- Sanitizer for one transaction entry, translating the per-transaction
body of the quality_gate loop.  Non-dict entries are skipped.  Date checks
come first (with mirroring of the single valid date when both dates are not
required), then the description and amount checks; on acceptance the amount
is the float value of the original (a rational stays itself here). -/
def sanitizeTx (require_both_dates : Bool) : TxEntry → Option TxRec
  | .nondict _ => none
  | .tx t =>
    let sale := t.sale_date
    let post := t.post_date
    let desc := t.description
    let amt := t.amount
    let sale_ok := valid_date sale
    let post_ok := valid_date post
    if require_both_dates && !(sale_ok && post_ok) then none
    else if !require_both_dates && !(sale_ok || post_ok) then none
    else
      let t1 :=
        if !require_both_dates then
          if sale_ok && !post_ok then { t with post_date := sale }
          else if post_ok && !sale_ok then { t with sale_date := post }
          else t
        else t
      if is_heading_like desc || decide ((trimChars desc.toList).length < 2)
          || !valid_amount amt then none
      else some { t1 with amount := amt }

/- ### Holder filtering (outer loop of quality_gate, lines 59-84) -/

/-- Result of one iteration of the holder loop: the pair is dropped, or it
contributes its sanitized transaction list. -/
def holderClean (allowed : List String) (k : Knobs) (pr : String × TxsVal) :
    Option (String × List TxRec) :=
  if k.require_known_holder && !allowed.isEmpty && !(allowed.contains pr.1)
  then none
  else
    match pr.2 with
    | .notlist _ => none
    | .lst txs =>
      if txs.isEmpty then none
      else
        let cleaned := txs.filterMap (sanitizeTx k.require_both_dates)
        if cleaned.isEmpty then none else some (pr.1, cleaned)

/-- Holder loop of quality_gate as it is written: a fold that appends every
kept holder to the accumulator. -/
def cleanedMap (allowed : List String) (k : Knobs)
    (m : List (String × TxsVal)) : List (String × List TxRec) :=
  m.foldl (fun acc pr => acc ++ (holderClean allowed k pr).toList) []

/-- Total number of transactions retained across all kept holders. -/
def totalTx (cm : List (String × List TxRec)) : Nat :=
  (cm.map (fun pr => pr.2.length)).sum

/- ### Signal score and summary coercion -/

/-- Signal score of quality_gate: count of the five signals that meet the
level thresholds. -/
def signalScore (sig : Signals) (k : Knobs) : Nat :=
  sig.has_brand.toNat + sig.has_structure.toNat + sig.has_last4.toNat +
    (decide (k.min_date_hits ≤ sig.date_hits)).toNat +
    (decide (k.min_money_hits ≤ sig.money_hits)).toNat

/-- Per-field numeric coercion of the summary loop: absent and None/empty
values are skipped, coercible values become their float value, values on
which float(...) raises become 0.0. -/
def coerceF : SField → SField
  | .missing => .missing
  | .nullOrEmpty => .nullOrEmpty
  | .fnum q => .fnum q
  | .badval _ => .fnum 0

/-- Coercion of the five known numeric summary fields. -/
def coerceG (g : GSummary) : GSummary :=
  ⟨coerceF g.previous_balance, coerceF g.new_balance, coerceF g.payments,
   coerceF g.credits, coerceF g.purchases⟩

/-- Summary write-back of quality_gate: an absent summary key is written
back as the empty dict (parsed.get creates it), a dict is coerced
field-wise, a non-dict value is left alone. -/
def coerceSummary : SummaryField → SummaryField
  | .sAbsent => .sDict {}
  | .sDict g => .sDict (coerceG g)
  | .sNonDict tag => .sNonDict tag

/- ### The quality gate -/

/-- Gate verdict: the returned triple (is_ok, message, cleaned-or-empty);
none models the empty dict returned on failure. -/
structure GateRes where
  ok : Bool
  msg : String
  cleaned : Option Parsed
deriving DecidableEq, Repr

/-- Re-wrap a cleaned holder list as the dict value stored back into the
candidate. -/
def toTxsVal (c : List TxRec) : TxsVal := .lst (c.map TxEntry.tx)

/-- Embedding of quality_gate from quality_checks.py.  The first component
is the returned triple; the second component is the state of the caller
candidate object after the call (the function mutates its argument at the
line parsed[transactions_by_cardholder] = cleaned_map and in the summary
write-back, both of which are visible to the caller). -/
def quality_gate (raw : RawFeat) (cand : JsonCand) (retry_level : Int) :
    GateRes × JsonCand :=
  match cand with
  | .notDict tg => (⟨false, "Parsed result is not a dict.", none⟩, .notDict tg)
  | .obj p =>
    match p.txField.getD (.dictF []) with
    | .nondictF _ =>
      (⟨false, "Missing or invalid transactions_by_cardholder.", none⟩, .obj p)
    | .dictF m =>
      let k := knobsOf (levelOf retry_level)
      let cm := cleanedMap raw.allowed_names k m
      let p1 : Parsed :=
        { p with txField := some (.dictF (cm.map (fun pr => (pr.1, toTxsVal pr.2)))) }
      if totalTx cm = 0 then
        (⟨false, "No valid transactions after cleanup.", none⟩, .obj p1)
      else if signalScore raw.sig k < 2 ∧ levelOf retry_level = 0 then
        (⟨false, "Source text lacks recognizable statement signals.", none⟩, .obj p1)
      else
        let p2 : Parsed := { p1 with summary := coerceSummary p1.summary }
        (⟨true, "OK", some p2⟩, .obj p2)

/- ### Generic fold lemmas -/

/-- The accumulate-by-append loop pattern equals filterMap. -/
theorem foldl_append_toList {α β : Type} (f : α → Option β) (m : List α)
    (acc : List β) :
    m.foldl (fun a x => a ++ (f x).toList) acc = acc ++ m.filterMap f := by
  induction m generalizing acc with
  | nil => simp
  | cons x xs ih => cases hfx : f x <;> simp [ih, hfx]

/-- cleanedMap is the filterMap of the per-holder cleaning step. -/
theorem cleanedMap_eq_filterMap (allowed : List String) (k : Knobs)
    (m : List (String × TxsVal)) :
    cleanedMap allowed k m = m.filterMap (holderClean allowed k) := by
  simpa using foldl_append_toList (holderClean allowed k) m []

/- ### Facts about the sanitizer -/

/-- Every record accepted by the sanitizer has both dates valid under the
date pattern of _valid_date. -/
theorem sanitizeTx_dates {rbd : Bool} {e : TxEntry} {t : TxRec}
    (hst : sanitizeTx rbd e = some t) :
    valid_date t.sale_date = true ∧ valid_date t.post_date = true := by
  cases e with
  | nondict tag => simp [sanitizeTx] at hst
  | tx t0 =>
    simp only [sanitizeTx] at hst
    cases rbd with
    | true =>
      cases hs : valid_date t0.sale_date with
      | false => rw [hs] at hst; simp at hst
      | true =>
        cases hp : valid_date t0.post_date with
        | false => rw [hs, hp] at hst; simp at hst
        | true =>
          rw [hs, hp] at hst
          rw [if_neg (by decide), if_neg (by decide),
            if_neg (show ¬((!true : Bool) = true) by decide)] at hst
          split at hst
          · exact Option.noConfusion hst
          · rw [Option.some_inj] at hst
            subst hst
            exact ⟨hs, hp⟩
    | false =>
      cases hs : valid_date t0.sale_date with
      | false =>
        cases hp : valid_date t0.post_date with
        | false => rw [hs, hp] at hst; simp at hst
        | true =>
          rw [hs, hp] at hst
          rw [if_neg (by decide), if_neg (by decide),
            if_pos (show ((!false : Bool) = true) by decide),
            if_neg (show ¬(((false : Bool) && !true) = true) by decide),
            if_pos (show (((true : Bool) && !false) = true) by decide)] at hst
          split at hst
          · exact Option.noConfusion hst
          · rw [Option.some_inj] at hst
            subst hst
            exact ⟨hp, hp⟩
      | true =>
        cases hp : valid_date t0.post_date with
        | false =>
          rw [hs, hp] at hst
          rw [if_neg (by decide), if_neg (by decide),
            if_pos (show ((!false : Bool) = true) by decide),
            if_pos (show (((true : Bool) && !false) = true) by decide)] at hst
          split at hst
          · exact Option.noConfusion hst
          · rw [Option.some_inj] at hst
            subst hst
            exact ⟨hs, hs⟩
        | true =>
          rw [hs, hp] at hst
          rw [if_neg (by decide), if_neg (by decide),
            if_pos (show ((!false : Bool) = true) by decide),
            if_neg (show ¬(((true : Bool) && !true) = true) by decide),
            if_neg (show ¬(((true : Bool) && !true) = true) by decide)] at hst
          split at hst
          · exact Option.noConfusion hst
          · rw [Option.some_inj] at hst
            subst hst
            exact ⟨hs, hp⟩

/-- A string passing _valid_date is nonempty. -/
theorem valid_date_ne_empty {s : String} (hv : valid_date s = true) : s ≠ "" := by
  intro he
  subst he
  exact absurd hv (by decide)

/- ### Claim C1 -/

/-- Name normalization used by the SPEC side of claim C1: case and space
insensitive comparison. -/
def normName (s : String) : List Char :=
  lowerChars (s.toList.filter (fun c => !(c == ' ')))

/-- Modelled from the spec: holder-name matching as the specification words
it (section 4.4 step 3 and section 9): keep a holder when its name exactly
matches an allow-listed name, or when it is a case/space-insensitive
substring match against an allow-listed name.  The source code
(quality_checks.py line 62) has no such containment fallback; this
definition exists only to state the divergence. -/
def specHolderMatch (allowed : List String) (h : String) : Bool :=
  allowed.contains h ||
    allowed.any (fun a => containsList (normName h) (normName a))

/-- Concrete well-formed transaction used in several counterexamples. -/
def cexTx : TxRec :=
  { sale_date := "1/2", post_date := "1/3", description := "coffee shop",
    amount := .num 5 }

/-- C1 counterexample: at retry level 0 with allow-list ["JOHN DOE"], the
holder "John Doe" is a case/space-insensitive match (so the claim says it is
kept), its transaction survives sanitization, and yet the code keeps no
holder at all, because line 62 only tests exact set membership. -/
theorem C1_counterexample :
    specHolderMatch ["JOHN DOE"] ("John Doe") = true ∧
    ("John Doe" ∉ (["JOHN DOE"] : List String)) ∧
    ([TxEntry.tx cexTx].filterMap (sanitizeTx true) = [cexTx]) ∧
    cleanedMap ["JOHN DOE"] (knobsOf 0) [("John Doe", .lst [.tx cexTx])] = [] ∧
    (quality_gate ⟨["JOHN DOE"], {}⟩
        (.obj { txField := some (.dictF [("John Doe", .lst [.tx cexTx])]) }) 0).1.ok
      = false := by
  decide

/-- C1 amended: at the corroboration-requiring level 0, when the allow-list
is non-empty a holder is kept exactly when its name is literally an element
of the allow-list (no substring fallback) and at least one of its
transactions survives sanitization; when the allow-list is empty every
holder is kept subject only to sanitization. -/
theorem C1_amended (allowed : List String) (m : List (String × TxsVal))
    (h : String) :
    (∃ c, (h, c) ∈ cleanedMap allowed (knobsOf 0) m) ↔
      ((allowed = [] ∨ h ∈ allowed) ∧
        ∃ l, (h, TxsVal.lst l) ∈ m ∧
          l.filterMap (sanitizeTx true) ≠ []) := by
  rw [cleanedMap_eq_filterMap]
  constructor
  · rintro ⟨c, hc⟩
    rw [List.mem_filterMap] at hc
    obtain ⟨⟨h0, v⟩, hmem, hcl⟩ := hc
    unfold holderClean at hcl
    split at hcl
    · exact absurd hcl (by simp)
    · rename_i hcond
      cases v with
      | notlist tag => exact absurd hcl (by simp)
      | lst txs =>
        simp only at hcl
        split at hcl
        · exact absurd hcl (by simp)
        · split at hcl
          · exact absurd hcl (by simp)
          · rename_i hne hce
            obtain ⟨he1, he2⟩ := Prod.mk.injEq .. ▸ Option.some_inj.mp hcl
            subst he1
            refine ⟨?_, txs, hmem, by simpa using hce⟩
            simp only [knobsOf, Bool.not_eq_true, Bool.and_eq_false_iff] at hcond
            rcases hcond with h1 | h2
            · rcases h1 with h1 | h1
              · simp at h1
              · left
                simpa [List.isEmpty_iff] using h1
            · right
              simpa using h2
  · rintro ⟨hall, l, hmem, hne⟩
    refine ⟨l.filterMap (sanitizeTx true), ?_⟩
    rw [List.mem_filterMap]
    refine ⟨(h, TxsVal.lst l), hmem, ?_⟩
    unfold holderClean
    have hl : ¬l.isEmpty := by
      intro hl
      rw [List.isEmpty_iff] at hl
      subst hl
      simp at hne
    have hcond : ¬((knobsOf 0).require_known_holder && !allowed.isEmpty &&
        !(allowed.contains h)) = true := by
      simp only [knobsOf, Bool.and_eq_true, Bool.not_eq_eq_eq_not, Bool.not_true]
      rintro ⟨⟨-, hne2⟩, hnc⟩
      rcases hall with rfl | hmem2
      · simp at hne2
      · have h3 : List.elem h allowed = true := List.elem_iff.mpr hmem2
        have h4 : allowed.contains h = true := h3
        rw [h4] at hnc
        exact Bool.noConfusion hnc
    rw [if_neg hcond]
    simp only [knobsOf]
    rw [if_neg hl]
    simp [hne]

/- ### Claim C2 -/

/-- C2 counterexample: the description "ab" trims to exactly 2 characters
and contains no heading snippet, yet a record that is valid in every other
field is rejected, because _is_heading_like already rejects any stripped
description shorter than 3 characters. -/
theorem C2_counterexample :
    (trimChars ("ab").toList).length = 2 ∧
    heading_snippets.any (fun sn => containsList sn.toList (lowerTrim ("ab"))) = false ∧
    valid_date ("1/2") = true ∧ valid_date ("1/3") = true ∧
    valid_amount (.num 5) = true ∧
    (is_heading_like ("ab") || decide ((trimChars ("ab").toList).length < 2)) = true ∧
    sanitizeTx true (.tx { cexTx with description := "ab" }) = none := by
  decide

/-- C2 amended: the description-based rejection used by the gate (the
_is_heading_like test together with the redundant length-below-2 test on
line 78) fires exactly when the trimmed description is shorter than 3
characters or case-insensitively contains one of the fixed heading
snippets. -/
theorem C2_amended (desc : String) :
    (is_heading_like desc || decide ((trimChars desc.toList).length < 2)) = true ↔
      ((trimChars desc.toList).length < 3 ∨
        heading_snippets.any (fun sn => containsList sn.toList (lowerTrim desc)) = true) := by
  have hlen : (lowerTrim desc).length = (trimChars desc.toList).length := by
    simp [lowerTrim, lowerChars]
  simp only [is_heading_like]
  by_cases h3 : (trimChars desc.toList).length < 3
  · have h3l : (lowerTrim desc).length < 3 := by rw [hlen]; exact h3
    rw [if_pos h3l]
    constructor
    · intro _
      exact Or.inl h3
    · intro _
      simp
  · have h3l : ¬((lowerTrim desc).length < 3) := by rw [hlen]; exact h3
    rw [if_neg h3l]
    have h2 : ¬((trimChars desc.toList).length < 2) := by omega
    rw [decide_eq_false h2, Bool.or_false]
    constructor
    · intro ha
      exact Or.inr ha
    · rintro (hlt | ha)
    
      · exact absurd hlt h3
      · exact ha

/- ### Claim C3 -/

/-- C3: every transaction record accepted into the cleaned holder map, at
any retry level, has both dates valid under the date pattern and both
non-empty (at the relaxed level this relies on the mirroring of the single
valid date). -/
theorem C3_dates (rl : Int) (allowed : List String) (m : List (String × TxsVal))
    (h : String) (c : List TxRec) (t : TxRec)
    (hmem : (h, c) ∈ cleanedMap allowed (knobsOf (levelOf rl)) m) (ht : t ∈ c) :
    valid_date t.sale_date = true ∧ valid_date t.post_date = true ∧
      t.sale_date ≠ "" ∧ t.post_date ≠ "" := by
  rw [cleanedMap_eq_filterMap, List.mem_filterMap] at hmem
  obtain ⟨⟨h0, v⟩, hm, hcl⟩ := hmem
  unfold holderClean at hcl
  split at hcl
  · exact Option.noConfusion hcl
  · cases v with
    | notlist tag => exact Option.noConfusion hcl
    | lst txs =>
      simp only at hcl
      split at hcl
      · exact Option.noConfusion hcl
      · split at hcl
        · exact Option.noConfusion hcl
        · rw [Option.some_inj] at hcl
          obtain ⟨he1, he2⟩ := Prod.mk.injEq .. ▸ hcl
          subst he2
          rw [List.mem_filterMap] at ht
          obtain ⟨e, he, hse⟩ := ht
          obtain ⟨d1, d2⟩ := sanitizeTx_dates hse
          exact ⟨d1, d2, valid_date_ne_empty d1, valid_date_ne_empty d2⟩

/-- Relaxed-level input record of the C3 witness: only the sale date is
valid. -/
def witTx : TxRec :=
  { sale_date := "1/2", post_date := "x", description := "coffee shop",
    amount := .num 5 }

/-- Record produced from witTx by the sanitizer at the relaxed level: the
valid sale date has been mirrored into the post date. -/
def witTxOut : TxRec :=
  { sale_date := "1/2", post_date := "1/2", description := "coffee shop",
    amount := .num 5 }

/-- Holder map of the C3 witness. -/
def witMap : List (String × TxsVal) := [("H", .lst [.tx witTx])]

/-- C3 witness: at the relaxed level 2 the record witTx is accepted with
the mirrored date, and the theorem applies to it. -/
theorem C3_witness :
    (("H", [witTxOut]) ∈ cleanedMap [] (knobsOf (levelOf 2)) witMap) ∧
    (witTxOut ∈ [witTxOut]) ∧
    (valid_date witTxOut.sale_date = true ∧ valid_date witTxOut.post_date = true ∧
      witTxOut.sale_date ≠ "" ∧ witTxOut.post_date ≠ "") :=
  ⟨by decide, by decide,
    C3_dates 2 [] witMap ("H") [witTxOut] witTxOut (by decide) (by decide)⟩

/- ### Claim C4 -/

/-- C4: the gate reports the insufficient-signal rejection only when the
clamped level is 0 and the signal score is below 2; at clamped level 1 or 2,
whenever at least one transaction survives sanitization, the gate accepts
(so it never rejects for lack of statement signals). -/
theorem C4_signal_guard :
    (∀ (raw : RawFeat) (cand : JsonCand) (rl : Int),
        (quality_gate raw cand rl).1.msg =
            "Source text lacks recognizable statement signals." →
          levelOf rl = 0 ∧ signalScore raw.sig (knobsOf (levelOf rl)) < 2) ∧
    (∀ (raw : RawFeat) (p : Parsed) (m : List (String × TxsVal)) (rl : Int),
        p.txField = some (.dictF m) →
        levelOf rl ≠ 0 →
        totalTx (cleanedMap raw.allowed_names (knobsOf (levelOf rl)) m) ≠ 0 →
        (quality_gate raw (.obj p) rl).1.ok = true ∧
          (quality_gate raw (.obj p) rl).1.msg = "OK") := by
  constructor
  · intro raw cand rl hmsg
    cases cand with
    | notDict tg => simp [quality_gate] at hmsg
    | obj p =>
      cases htf : p.txField.getD (TxField.dictF []) with
      | nondictF tg => simp [quality_gate, htf] at hmsg
      | dictF m =>
        simp only [quality_gate, htf] at hmsg
        split at hmsg
        · simp at hmsg
        · split at hmsg
          · rename_i hcond
            exact ⟨hcond.2, hcond.1⟩
          · simp at hmsg
  · intro raw p m rl hm hlv htx
    have hgd : p.txField.getD (TxField.dictF []) = TxField.dictF m := by
      rw [hm]
      rfl
    simp only [quality_gate, hgd]
    rw [if_neg htx, if_neg (fun hc => hlv (And.right hc))]
    exact ⟨rfl, rfl⟩

/-- Candidate parse of the C4 and C9 witnesses. -/
def pW : Parsed := { txField := some (.dictF [("H", .lst [.tx cexTx])]) }

/-- Holder map of pW. -/
def mW : List (String × TxsVal) := [("H", .lst [.tx cexTx])]

/-- C4 witness: with an all-zero signal set (score 0) and one surviving
transaction, the gate accepts at level 1. -/
theorem C4_witness :
    levelOf 1 ≠ 0 ∧
    totalTx (cleanedMap ({} : RawFeat).allowed_names (knobsOf (levelOf 1)) mW) ≠ 0 ∧
    (quality_gate {} (.obj pW) 1).1.ok = true ∧
      (quality_gate {} (.obj pW) 1).1.msg = "OK" :=
  ⟨by decide, by decide, C4_signal_guard.2 {} pW mW 1 rfl (by decide) (by decide)⟩

/- ### Claim C9 -/

/-- Rejected candidate of the C9 couner-case: its only holder carries a
single non-dict entry, so cleaning empties the map and the gate rejects. -/
def pR : Parsed := { txField := some (.dictF [("X", .lst [.nondict 0])]) }

/-- C9: for every dict-shaped candidate, the state of the caller candidate
after the gate call carries the filtered holder map in place of the
original transactions_by_cardholder value, whatever the verdict; and at a
concrete rejected input the returned cleaned parse is empty while the
caller candidate has been mutated and is not restored. -/
theorem C9_inplace_mutation :
    (∀ (raw : RawFeat) (p : Parsed) (m : List (String × TxsVal)) (rl : Int),
        p.txField = some (.dictF m) →
        ∃ p', (quality_gate raw (.obj p) rl).2 = .obj p' ∧
          p'.txField = some (.dictF
            ((cleanedMap raw.allowed_names (knobsOf (levelOf rl)) m).map
              (fun pr => (pr.1, toTxsVal pr.2))))) ∧
    ((quality_gate {} (.obj pR) 0).1.ok = false ∧
      (quality_gate {} (.obj pR) 0).1.cleaned = none ∧
      (quality_gate {} (.obj pR) 0).2 ≠ .obj pR) := by
  constructor
  · intro raw p m rl hm
    have hgd : p.txField.getD (TxField.dictF []) = TxField.dictF m := by
      rw [hm]
      rfl
    simp only [quality_gate, hgd]
    split
    · exact ⟨_, rfl, rfl⟩
    · split
      · exact ⟨_, rfl, rfl⟩
      · exact ⟨_, rfl, rfl⟩
  · exact ⟨by decide, by decide, by decide⟩

/-- C9 witness: the universal part of the mutation theorem applied at the
concrete rejected input. -/
theorem C9_witness :
    ∃ p', (quality_gate {} (.obj pR) 0).2 = .obj p' ∧
      p'.txField = some (.dictF
        ((cleanedMap ({} : RawFeat).allowed_names (knobsOf (levelOf 0))
            [("X", .lst [.nondict 0])]).map
          (fun pr => (pr.1, toTxsVal pr.2)))) :=
  C9_inplace_mutation.1 {} pR [("X", .lst [.nondict 0])] 0 rfl

/- ### Retry controller
(statement_parser_agent.py run_parsing_agent and
statement_processor.py process_single_statement)

The external extraction collaborator (the LLM team of stage 1/2) is
modelled as an oracle mapping the attempt index to the candidate it
produces on that attempt, with none for an attempt in which no JSON can be
extracted (the stage-1 failure path).  Exceptions raised by the external
machinery are indistinguishable from stage-1 failure for every property
claimed and are folded into none. -/

/-- Per-attempt result triple of process_single_statement. -/
structure AttemptRes where
  ok : Bool
  msg : String
  data : Option Parsed
deriving DecidableEq, Repr

/-- Embedding of process_single_statement: extract a candidate (external),
gate it at the given retry level, and return the triple
(success, error message, parsed data). -/
def process_single_statement (raw : RawFeat) (cand : Option JsonCand)
    (lvl : Int) : AttemptRes :=
  match cand with
  | none => ⟨false, "Failed to parse statement in Stage 1", none⟩
  | some c =>
    let r := (quality_gate raw c lvl).1
    if r.ok then ⟨true, "", r.cleaned⟩
    else ⟨false, "Low-quality parse: " ++ r.msg, none⟩

/-- Outcome of the per-document retry loop of run_parsing_agent, together
with a trace of the attempts made: each entry records the strictness level
submitted to the gate and whether the gate accepted. -/
structure DocOutcome where
  ok : Bool
  lastError : Option String
  parsedOut : Option Parsed
  trace : List (Nat × Bool)
deriving DecidableEq, Repr

/-- Retry loop body of run_parsing_agent over the remaining attempt
indices, carrying the running last_error variable. -/
def runAttemptsFrom (raw : RawFeat) (oracle : Nat → Option JsonCand) :
    List Nat → Option String → DocOutcome
  | [], le => ⟨false, le, none, []⟩
  | a :: rest, le =>
    let r := process_single_statement raw (oracle a) (Int.ofNat a)
    if r.ok then ⟨true, le, r.data, [(a, true)]⟩
    else
      let le2 := some (if r.msg = "" then ("Unknown error") else r.msg)
      let o := runAttemptsFrom raw oracle rest le2
      ⟨o.ok, o.lastError, o.parsedOut, (a, false) :: o.trace⟩

/-- Per-document retry loop: MAX_RETRIES = 2, so the attempt indices are
range(0, 3) = [0, 1, 2], and attempt i runs the gate at level i. -/
def runDoc (raw : RawFeat) (oracle : Nat → Option JsonCand) : DocOutcome :=
  runAttemptsFrom raw oracle [0, 1, 2] none

/-- One input document of a batch: its file name, its raw-text features and
its extraction oracle. -/
structure BatchDoc where
  name : String
  raw : RawFeat
  oracle : Nat → Option JsonCand

/-- Contribution of a document to the successful-files list. -/
def succOf (d : BatchDoc) : Option (String × Parsed) :=
  let o := runDoc d.raw d.oracle
  if o.ok then some (d.name, o.parsedOut.getD {}) else none

/-- Contribution of a document to the failed-files list. -/
def failOf (d : BatchDoc) : Option (String × Option String) :=
  let o := runDoc d.raw d.oracle
  if o.ok then none else some (d.name, o.lastError)

/-- Loop body of run_parsing_agent over the files of a batch. -/
def batchStep (acc : List (String × Parsed) × List (String × Option String))
    (d : BatchDoc) : List (String × Parsed) × List (String × Option String) :=
  let o := runDoc d.raw d.oracle
  if o.ok then (acc.1 ++ [(d.name, o.parsedOut.getD {})], acc.2)
  else (acc.1, acc.2 ++ [(d.name, o.lastError)])

/-- Batch loop of run_parsing_agent: the successful results (consumed by
the aggregation step) and the failed files with their last errors. -/
def processBatch (docs : List BatchDoc) :
    List (String × Parsed) × List (String × Option String) :=
  docs.foldl batchStep ([], [])

/-- The batch fold written with an arbitrary starting accumulator is the
pair of filterMaps of the per-document contributions. -/
theorem batch_foldl_eq (docs : List BatchDoc)
    (acc : List (String × Parsed) × List (String × Option String)) :
    docs.foldl batchStep acc =
      (acc.1 ++ docs.filterMap succOf, acc.2 ++ docs.filterMap failOf) := by
  induction docs generalizing acc with
  | nil => simp
  | cons d ds ih =>
    cases hok : (runDoc d.raw d.oracle).ok with
    | true => simp [batchStep, succOf, failOf, hok, ih]
    | false => simp [batchStep, succOf, failOf, hok, ih]

/- ### Claim C7 -/

/-- C7: the retry controller makes at most 3 attempts; attempt i submits to
the gate at level i, in order; the first gate acceptance stops the loop and
is returned; when all attempts fail the outcome carries the last rejection
message; and the batch outcome is a per-document filterMap, so a failing
document leaves the successful results of every other document (the input
of the aggregation step) unchanged. -/
theorem C7_retry_controller :
    (∀ (raw : RawFeat) (oracle : Nat → Option JsonCand),
        (runDoc raw oracle).trace.length ≤ 3) ∧
    (∀ (raw : RawFeat) (oracle : Nat → Option JsonCand),
        (runDoc raw oracle).trace.map Prod.fst =
          List.range (runDoc raw oracle).trace.length) ∧
    (∀ (raw : RawFeat) (oracle : Nat → Option JsonCand) (i : Nat),
        i < 3 →
        (process_single_statement raw (oracle i) (Int.ofNat i)).ok = true →
        (∀ j, j < i →
          (process_single_statement raw (oracle j) (Int.ofNat j)).ok = false) →
        (runDoc raw oracle).ok = true ∧
        (runDoc raw oracle).trace =
          ((List.range i).map (fun j => (j, false))) ++ [(i, true)] ∧
        (runDoc raw oracle).parsedOut =
          (process_single_statement raw (oracle i) (Int.ofNat i)).data) ∧
    (∀ (raw : RawFeat) (oracle : Nat → Option JsonCand),
        (∀ i, i < 3 →
          (process_single_statement raw (oracle i) (Int.ofNat i)).ok = false) →
        (runDoc raw oracle).ok = false ∧
        (runDoc raw oracle).parsedOut = none ∧
        (runDoc raw oracle).lastError = some
          (if (process_single_statement raw (oracle 2) (Int.ofNat 2)).msg = ""
           then ("Unknown error")
           else (process_single_statement raw (oracle 2) (Int.ofNat 2)).msg)) ∧
    (∀ docs, processBatch docs = (docs.filterMap succOf, docs.filterMap failOf)) ∧
    (∀ (xs : List BatchDoc) (d : BatchDoc) (ys : List BatchDoc),
        (runDoc d.raw d.oracle).ok = false →
        (processBatch (xs ++ d :: ys)).1 = (processBatch (xs ++ ys)).1) := by
  refine ⟨?_, ?_, ?_, ?_, ?_, ?_⟩
  · intro raw oracle
    cases h0 : (process_single_statement raw (oracle 0) (Int.ofNat 0)).ok <;>
      cases h1 : (process_single_statement raw (oracle 1) (Int.ofNat 1)).ok <;>
      cases h2 : (process_single_statement raw (oracle 2) (Int.ofNat 2)).ok <;>
      (simp only [runDoc, runAttemptsFrom]; rw [h0, h1, h2]; simp)
  · intro raw oracle
    cases h0 : (process_single_statement raw (oracle 0) (Int.ofNat 0)).ok <;>
      cases h1 : (process_single_statement raw (oracle 1) (Int.ofNat 1)).ok <;>
      cases h2 : (process_single_statement raw (oracle 2) (Int.ofNat 2)).ok <;>
      (simp only [runDoc, runAttemptsFrom]; rw [h0, h1, h2]; simp [List.range_succ])
  · intro raw oracle i hi hacc hprev
    match i with
    | 0 =>
      refine ⟨?_, ?_, ?_⟩ <;> (simp only [runDoc, runAttemptsFrom]; rw [hacc]; simp)
    | 1 =>
      have h0 := hprev 0 (by omega)
      refine ⟨?_, ?_, ?_⟩ <;>
        (simp only [runDoc, runAttemptsFrom]; rw [h0, hacc]; simp [List.range_succ])
    | 2 =>
      have h0 := hprev 0 (by omega)
      have h1 := hprev 1 (by omega)
      refine ⟨?_, ?_, ?_⟩ <;>
        (simp only [runDoc, runAttemptsFrom]; rw [h0, h1, hacc]; simp [List.range_succ])
    | n + 3 => omega
  · intro raw oracle hall
    have h0 := hall 0 (by omega)
    have h1 := hall 1 (by omega)
    have h2 := hall 2 (by omega)
    refine ⟨?_, ?_, ?_⟩ <;> (simp only [runDoc, runAttemptsFrom]; rw [h0, h1, h2]; simp)
  · intro docs
    simpa using batch_foldl_eq docs ([], [])
  · intro xs d ys hok
    have e1 := batch_foldl_eq (xs ++ d :: ys) ([], [])
    have e2 := batch_foldl_eq (xs ++ ys) ([], [])
    unfold processBatch
    rw [e1, e2]
    simp [List.filterMap_append, succOf, hok]

/-- C7 witness: with a constant oracle whose candidate the gate rejects at
level 0 (no statement signals) but accepts at level 1, the controller stops
after the second attempt with the trace [(0, rejected), (1, accepted)]. -/
theorem C7_witness :
    ((process_single_statement {} (some (.obj pW)) (Int.ofNat 1)).ok = true) ∧
    ((process_single_statement {} (some (.obj pW)) (Int.ofNat 0)).ok = false) ∧
    ((runDoc {} (fun _ => some (.obj pW))).ok = true ∧
      (runDoc {} (fun _ => some (.obj pW))).trace = [(0, false), (1, true)] ∧
      (runDoc {} (fun _ => some (.obj pW))).parsedOut =
        (process_single_statement {} (some (.obj pW)) (Int.ofNat 1)).data) := by
  have h := C7_retry_controller.2.2.1 {} (fun _ => some (.obj pW)) 1 (by omega)
    (by decide) (by
      intro j hj
      have hj0 : j = 0 := by omega
      subst hj0
      decide)
  refine ⟨by decide, by decide, h.1, ?_, h.2.2⟩
  rw [h.2.1]
  decide

/- ### Hierarchical aggregator (data_combiner.py combine_parsed_data)

Per-document inputs are the JSON files written for the successfully gated
documents.  A file whose open or json.load raises is skipped as a whole
(the except arm runs before any state change).  Values that would instead
raise midway through the per-file body (a non-dict summary value, a
non-numeric summary field or transaction amount, a non-dict value under the
transactions_by_cardholder key) are excluded by typing: no claim exercises
the partially-updated state Python would leave behind there. -/

/-- Transaction entry fields read by the aggregator; amount defaults to 0
and category to the Uncategorized bucket via dict.get.  All other fields of
a transaction dict are never read by combine_parsed_data and are omitted:
entries are otherwise treated as opaque values. -/
structure CTx where
  amount : Option ℚ := none
  category : Option String := none
deriving DecidableEq, Repr

/-- Entry of a per-holder transaction list: dict-shaped or not. -/
inductive CEntry where
  | tx (t : CTx)
  | junk (tag : Nat)
deriving DecidableEq, Repr

/-- Value under a holder key of a document: list-shaped or not. -/
inductive CTxsVal where
  | lst (l : List CEntry)
  | notlist (tag : Nat)
deriving DecidableEq, Repr

/-- Summary block of a per-document result, restricted to the keys the
aggregator reads. -/
structure CSum where
  bank_name : Option String := none
  total_transactions : Option ℚ := none
  total_amount : Option ℚ := none
  purchases : Option ℚ := none
  payments : Option ℚ := none
deriving DecidableEq, Repr

/-- One per-document parsed result as the aggregator sees it. -/
structure CDoc where
  tx : Option (List (String × CTxsVal)) := none
  summary : Option CSum := none
deriving DecidableEq, Repr

/-- One input file of combine_parsed_data: unreadable (open or json.load
raises) or a loaded document with its filename stem. -/
inductive FDoc where
  | bad (tag : Nat)
  | ok (filename : String) (data : CDoc)
deriving DecidableEq, Repr

/-- Per-bank block nested inside a holder rollup. -/
structure CardBankS where
  total_transactions : ℚ
  total_amount : ℚ
  total_purchases : ℚ
  total_payments : ℚ
deriving DecidableEq, Repr

/-- Holder rollup of the combined structure. -/
structure CardS where
  total_transactions : ℚ
  total_amount : ℚ
  total_purchases : ℚ
  total_payments : ℚ
  banks : String → Option CardBankS
  category_totals : String → Option ℚ

/-- Bank rollup of the combined structure. -/
structure BankS where
  total_statements : ℚ
  total_transactions : ℚ
  total_amount : ℚ
  total_purchases : ℚ
  total_payments : ℚ
  cardholders : List String

/-- Top-level combined_summary block. -/
structure CombS where
  total_files_processed : ℚ
  total_transactions : ℚ
  total_amount : ℚ
  total_purchases : ℚ
  total_payments : ℚ
deriving DecidableEq, Repr

/-- The combined structure built by combine_parsed_data.  String-keyed
dicts whose iteration order is never observed are modelled as functions to
Option (Python dict equality ignores key order); individual_statements and
the per-bank cardholders lists are genuine lists. -/
structure Combined where
  combined_transactions_by_cardholder : String → Option (List CEntry)
  individual_statements : List (String × CDoc)
  combined_summary : CombS
  summary_by_bank : String → Option BankS
  summary_by_cardholder : String → Option CardS
  category_totals : String → Option ℚ

/-- Pointwise update of a string-keyed map. -/
def upd {α : Type} (m : String → Option α) (k : String) (v : α) :
    String → Option α :=
  fun x => if x = k then some v else m x

/-- Freshly initialized per-bank block of a holder rollup. -/
def zeroCardBankS : CardBankS := ⟨0, 0, 0, 0⟩

/-- Freshly initialized holder rollup. -/
def zeroCardS : CardS := ⟨0, 0, 0, 0, fun _ => none, fun _ => none⟩

/-- Freshly initialized bank rollup. -/
def zeroBankS : BankS := ⟨0, 0, 0, 0, 0, []⟩

/-- Initial combined structure (lines 10-23 of data_combiner.py). -/
def initCombined : Combined :=
  ⟨fun _ => none, [], ⟨0, 0, 0, 0, 0⟩, fun _ => none, fun _ => none,
   fun _ => none⟩

/-- Running state of the per-transaction loop: the four local accumulators
together with the two live category maps it mutates (the holder category
map and the global category map). -/
structure TxLoopSt where
  cnt : ℚ
  amt : ℚ
  pur : ℚ
  pay : ℚ
  catC : String → Option ℚ
  catG : String → Option ℚ

/-- Body of the per-transaction loop (lines 92-114): non-dict entries are
ignored; a dict entry bumps the count, accumulates the amount, classifies
it as payment (negative, absolute value) or purchase, and adds the amount
into both category maps under its category key. -/
def txStep (s : TxLoopSt) (e : CEntry) : TxLoopSt :=
  match e with
  | .junk _ => s
  | .tx t =>
    let amount := t.amount.getD 0
    let category := t.category.getD ("Uncategorized")
    { cnt := s.cnt + 1
      amt := s.amt + amount
      pur := if amount < 0 then s.pur else s.pur + amount
      pay := if amount < 0 then s.pay + |amount| else s.pay
      catC := upd s.catC category ((s.catC category).getD 0 + amount)
      catG := upd s.catG category ((s.catG category).getD 0 + amount) }

/-- The per-transaction loop over one holder transaction list. -/
def txLoop (l : List CEntry) (s : TxLoopSt) : TxLoopSt := l.foldl txStep s

/-- Body of the per-holder loop (lines 53-126) for one (holder, value)
pair of a document processed under the given bank name: skip non-list and
empty values; otherwise extend the combined transaction list, initialize
the absent rollups, record the holder under the bank, run the transaction
loop and add its totals into the holder rollup and its per-bank block. -/
def pairStep (bank : String) (c : Combined) (pr : String × CTxsVal) :
    Combined :=
  match pr.2 with
  | .notlist _ => c
  | .lst l =>
    if l.isEmpty then c
    else
      let h := pr.1
      let ctx0 := (c.combined_transactions_by_cardholder h).getD []
      let cs0 := (c.summary_by_cardholder h).getD zeroCardS
      let bs0 := (c.summary_by_bank bank).getD zeroBankS
      let bs1 := if h ∈ bs0.cardholders then bs0
                 else { bs0 with cardholders := bs0.cardholders ++ [h] }
      let cb0 := (cs0.banks bank).getD zeroCardBankS
      let ts := txLoop l ⟨0, 0, 0, 0, cs0.category_totals, c.category_totals⟩
      let cs1 : CardS :=
        { total_transactions := cs0.total_transactions + ts.cnt
          total_amount := cs0.total_amount + ts.amt
          total_purchases := cs0.total_purchases + ts.pur
          total_payments := cs0.total_payments + ts.pay
          banks := upd cs0.banks bank
            ⟨cb0.total_transactions + ts.cnt, cb0.total_amount + ts.amt,
             cb0.total_purchases + ts.pur, cb0.total_payments + ts.pay⟩
          category_totals := ts.catC }
      { c with
        combined_transactions_by_cardholder :=
          upd c.combined_transactions_by_cardholder h (ctx0 ++ l)
        summary_by_cardholder := upd c.summary_by_cardholder h cs1
        summary_by_bank := upd c.summary_by_bank bank bs1
        category_totals := ts.catG }

/-- Bank name of a document: data.get with two Unknown Bank defaults. -/
def bankOf (d : CDoc) : String :=
  match d.summary with
  | none => "Unknown Bank"
  | some s => s.bank_name.getD ("Unknown Bank")

/-- Initialization of an absent bank rollup (lines 41-49). -/
def bankInit (bank : String) (cc : Combined) : Combined :=
  if (cc.summary_by_bank bank).isSome then cc
  else { cc with summary_by_bank := upd cc.summary_by_bank bank zeroBankS }

/-- Body of the per-file loop of combine_parsed_data for one loaded
document: record it under individual_statements, initialize its bank
rollup if absent, run the per-holder loop when the
transactions_by_cardholder key is present, then fold the document summary
into the bank rollup and the combined summary when the summary key is
present. -/
def docStep (c : Combined) (f : FDoc) : Combined :=
  match f with
  | .bad _ => c
  | .ok fn data =>
    let c1 := { c with individual_statements :=
      c.individual_statements ++ [(fn, data)] }
    let bank := bankOf data
    let c2 := bankInit bank c1
    let c3 := match data.tx with
      | none => c2
      | some pairs => pairs.foldl (pairStep bank) c2
    match data.summary with
    | none => c3
    | some s =>
      let bs := (c3.summary_by_bank bank).getD zeroBankS
      let bs2 := { bs with
          total_statements := bs.total_statements + 1
          total_transactions := bs.total_transactions + s.total_transactions.getD 0
          total_amount := bs.total_amount + s.total_amount.getD 0
          total_purchases := bs.total_purchases + s.purchases.getD 0
          total_payments := bs.total_payments + s.payments.getD 0 }
      let c4 := { c3 with summary_by_bank := upd c3.summary_by_bank bank bs2 }
      { c4 with combined_summary :=
        ⟨c4.combined_summary.total_files_processed + 1,
         c4.combined_summary.total_transactions + s.total_transactions.getD 0,
         c4.combined_summary.total_amount + s.total_amount.getD 0,
         c4.combined_summary.total_purchases + s.purchases.getD 0,
         c4.combined_summary.total_payments + s.payments.getD 0⟩ }

/-- Embedding of combine_parsed_data. -/
def combine_parsed_data (files : List FDoc) : Combined :=
  files.foldl docStep initCombined

/- ### Per-entry contribution functions -/

/-- Contribution of an entry to the transaction count: 1 for a dict entry,
0 otherwise. -/
def entCnt : CEntry → ℚ
  | .tx _ => 1
  | .junk _ => 0

/-- Contribution of an entry to the amount total. -/
def entAmt : CEntry → ℚ
  | .tx t => t.amount.getD 0
  | .junk _ => 0

/-- Contribution of an entry to the purchase total: the amount when it is
not negative. -/
def entPur : CEntry → ℚ
  | .tx t => if t.amount.getD 0 < 0 then 0 else t.amount.getD 0
  | .junk _ => 0

/-- Contribution of an entry to the payment total: the absolute value of a
negative amount. -/
def entPay : CEntry → ℚ
  | .tx t => if t.amount.getD 0 < 0 then |t.amount.getD 0| else 0
  | .junk _ => 0

/-- Contribution of an entry to the bucket of category c. -/
def entCat (c : String) : CEntry → ℚ
  | .tx t => if t.category.getD ("Uncategorized") = c then t.amount.getD 0 else 0
  | .junk _ => 0

/-- Boolean test that a dict entry falls in category c. -/
def catHit (c : String) : CEntry → Bool
  | .tx t => t.category.getD ("Uncategorized") == c
  | .junk _ => false

/-- Sum of a per-entry contribution over a list. -/
def lsum (f : CEntry → ℚ) (l : List CEntry) : ℚ := (l.map f).sum

/-- Boolean test that some entry of the list falls in category c. -/
def catMem (l : List CEntry) (c : String) : Bool := l.any (catHit c)

theorem lsum_nil (f : CEntry → ℚ) : lsum f [] = 0 := rfl

theorem lsum_cons (f : CEntry → ℚ) (e : CEntry) (l : List CEntry) :
    lsum f (e :: l) = f e + lsum f l := by
  simp [lsum]

theorem lsum_append (f : CEntry → ℚ) (a b : List CEntry) :
    lsum f (a ++ b) = lsum f a + lsum f b := by
  simp [lsum]

theorem catMem_nil (c : String) : catMem [] c = false := rfl

theorem catMem_cons (c : String) (e : CEntry) (l : List CEntry) :
    catMem (e :: l) c = (catHit c e || catMem l c) := by
  simp [catMem]

theorem catMem_append (c : String) (a b : List CEntry) :
    catMem (a ++ b) c = (catMem a c || catMem b c) := by
  simp [catMem]

/-- If no entry falls in category c, the category-c sum vanishes. -/
theorem catMem_false_sum {l : List CEntry} {c : String}
    (h : catMem l c = false) : lsum (entCat c) l = 0 := by
  induction l with
  | nil => rfl
  | cons e rest ih =>
    rw [catMem_cons, Bool.or_eq_false_iff] at h
    have he : entCat c e = 0 := by
      cases e with
      | junk tag => rfl
      | tx t =>
        have h1 := h.1
        simp only [catHit, beq_eq_false_iff_ne, ne_eq] at h1
        simp [entCat, h1]
    rw [lsum_cons, he, ih h.2, add_zero]

/- ### Characterization of the per-transaction loop -/

/-- The per-transaction loop adds the entry-wise sums to the four scalar
accumulators and, for every category key hit by some entry, adds the
category sum into the (initialized-if-absent) bucket of both category
maps. -/
theorem txLoop_char (l : List CEntry) (s : TxLoopSt) :
    txLoop l s =
      { cnt := s.cnt + lsum entCnt l
        amt := s.amt + lsum entAmt l
        pur := s.pur + lsum entPur l
        pay := s.pay + lsum entPay l
        catC := fun c => if catMem l c then
            some ((s.catC c).getD 0 + lsum (entCat c) l) else s.catC c
        catG := fun c => if catMem l c then
            some ((s.catG c).getD 0 + lsum (entCat c) l) else s.catG c } := by
  induction l generalizing s with
  | nil =>
    cases s with
    | mk cnt amt pur pay catC catG => simp [txLoop, lsum, catMem]
  | cons e rest ih =>
    have hstep : txLoop (e :: rest) s = txLoop rest (txStep s e) := rfl
    rw [hstep, ih]
    cases e with
    | junk tag =>
      simp only [txStep, TxLoopSt.mk.injEq]
      refine ⟨?_, ?_, ?_, ?_, ?_, ?_⟩ <;>
        simp [lsum_cons, entCnt, entAmt, entPur, entPay, catMem_cons, catHit, entCat]
    | tx t =>
      simp only [txStep, TxLoopSt.mk.injEq]
      refine ⟨?_, ?_, ?_, ?_, ?_, ?_⟩
      · rw [lsum_cons]
        show s.cnt + 1 + lsum entCnt rest = s.cnt + (entCnt (.tx t) + lsum entCnt rest)
        rw [show entCnt (.tx t) = 1 from rfl]
        ring
      · rw [lsum_cons]
        show s.amt + t.amount.getD 0 + lsum entAmt rest =
          s.amt + (entAmt (.tx t) + lsum entAmt rest)
        rw [show entAmt (.tx t) = t.amount.getD 0 from rfl]
        ring
      · rw [lsum_cons]
        show (if t.amount.getD 0 < 0 then s.pur else s.pur + t.amount.getD 0) +
            lsum entPur rest = s.pur + (entPur (.tx t) + lsum entPur rest)
        by_cases hneg : t.amount.getD 0 < 0
        · rw [if_pos hneg, show entPur (.tx t) = 0 from by simp [entPur, hneg]]
          ring
        · rw [if_neg hneg,
            show entPur (.tx t) = t.amount.getD 0 from by simp [entPur, hneg]]
          ring
      · rw [lsum_cons]
        show (if t.amount.getD 0 < 0 then s.pay + |t.amount.getD 0| else s.pay) +
            lsum entPay rest = s.pay + (entPay (.tx t) + lsum entPay rest)
        by_cases hneg : t.amount.getD 0 < 0
        · rw [if_pos hneg,
            show entPay (.tx t) = |t.amount.getD 0| from by simp [entPay, hneg]]
          ring
        · rw [if_neg hneg, show entPay (.tx t) = 0 from by simp [entPay, hneg]]
          ring
      · funext c
        by_cases hc : c = t.category.getD ("Uncategorized")
        · rw [hc]
          rw [show (upd s.catC (t.category.getD ("Uncategorized"))
                ((s.catC (t.category.getD ("Uncategorized"))).getD 0 + t.amount.getD 0))
                (t.category.getD ("Uncategorized")) =
              some ((s.catC (t.category.getD ("Uncategorized"))).getD 0 + t.amount.getD 0)
            from by simp [upd]]
          rw [catMem_cons,
            show catHit (t.category.getD ("Uncategorized")) (CEntry.tx t) = true
              from by simp [catHit],
            Bool.true_or, if_pos rfl]
          rw [lsum_cons,
            show entCat (t.category.getD ("Uncategorized")) (CEntry.tx t) = t.amount.getD 0
              from by simp [entCat]]
          by_cases hm : catMem rest (t.category.getD ("Uncategorized")) = true
          · rw [if_pos hm, Option.getD_some]
            congr 1
            ring
          · rw [if_neg hm, catMem_false_sum (Bool.not_eq_true _ ▸ hm)]
            congr 1
            ring
        · rw [show (upd s.catC (t.category.getD ("Uncategorized"))
                ((s.catC (t.category.getD ("Uncategorized"))).getD 0 + t.amount.getD 0)) c =
              s.catC c from by simp [upd, hc]]
          rw [catMem_cons,
            show catHit c (CEntry.tx t) = false from by
              simp only [catHit, beq_eq_false_iff_ne, ne_eq]
              exact fun he => hc he.symm,
            Bool.false_or]
          rw [lsum_cons,
            show entCat c (CEntry.tx t) = 0 from by
              simp only [entCat]
              exact if_neg (fun he => hc he.symm),
            zero_add]
      · funext c
        by_cases hc : c = t.category.getD ("Uncategorized")
        · rw [hc]
          rw [show (upd s.catG (t.category.getD ("Uncategorized"))
                ((s.catG (t.category.getD ("Uncategorized"))).getD 0 + t.amount.getD 0))
                (t.category.getD ("Uncategorized")) =
              some ((s.catG (t.category.getD ("Uncategorized"))).getD 0 + t.amount.getD 0)
            from by simp [upd]]
          rw [catMem_cons,
            show catHit (t.category.getD ("Uncategorized")) (CEntry.tx t) = true
              from by simp [catHit],
            Bool.true_or, if_pos rfl]
          rw [lsum_cons,
            show entCat (t.category.getD ("Uncategorized")) (CEntry.tx t) = t.amount.getD 0
              from by simp [entCat]]
          by_cases hm : catMem rest (t.category.getD ("Uncategorized")) = true
          · rw [if_pos hm, Option.getD_some]
            congr 1
            ring
          · rw [if_neg hm, catMem_false_sum (Bool.not_eq_true _ ▸ hm)]
            congr 1
            ring
        · rw [show (upd s.catG (t.category.getD ("Uncategorized"))
                ((s.catG (t.category.getD ("Uncategorized"))).getD 0 + t.amount.getD 0)) c =
              s.catG c from by simp [upd, hc]]
          rw [catMem_cons,
            show catHit c (CEntry.tx t) = false from by
              simp only [catHit, beq_eq_false_iff_ne, ne_eq]
              exact fun he => hc he.symm,
            Bool.false_or]
          rw [lsum_cons,
            show entCat c (CEntry.tx t) = 0 from by
              simp only [entCat]
              exact if_neg (fun he => hc he.symm),
            zero_add]

/- ### Claim C8 -/

/-- C8: combining the empty file list yields the freshly initialized
aggregate: zero totals and empty maps. -/
theorem C8_empty_combine :
    (combine_parsed_data []).combined_summary = ⟨0, 0, 0, 0, 0⟩ ∧
    (combine_parsed_data []).individual_statements = [] ∧
    (∀ k, (combine_parsed_data []).combined_transactions_by_cardholder k = none) ∧
    (∀ k, (combine_parsed_data []).summary_by_bank k = none) ∧
    (∀ k, (combine_parsed_data []).summary_by_cardholder k = none) ∧
    (∀ k, (combine_parsed_data []).category_totals k = none) :=
  ⟨rfl, rfl, fun _ => rfl, fun _ => rfl, fun _ => rfl, fun _ => rfl⟩

/- ### Document-level contribution notions -/

/-- Value of a holder pair when it is processed (a non-empty list), none
when the pair is skipped by the garbage filter. -/
def liveBlock (pr : String × CTxsVal) : Option (List CEntry) :=
  match pr.2 with
  | .lst l => if l.isEmpty then none else some l
  | .notlist _ => none

/-- Processed value of a pair when it belongs to holder h. -/
def holderBlock (h : String) (pr : String × CTxsVal) : Option (List CEntry) :=
  if pr.1 = h then liveBlock pr else none

/-- Concatenation of all processed transaction lists of holder h, in pair
order. -/
def pairsJoin (h : String) (pairs : List (String × CTxsVal)) : List CEntry :=
  (pairs.filterMap (holderBlock h)).flatten

/-- Boolean test that holder h owns at least one processed pair. -/
def anyLive (h : String) (pairs : List (String × CTxsVal)) : Bool :=
  pairs.any (fun pr => (holderBlock h pr).isSome)

/-- Concatenation of all processed transaction lists of every holder. -/
def allPairsJoin (pairs : List (String × CTxsVal)) : List CEntry :=
  (pairs.filterMap liveBlock).flatten

/-- Holders of the processed pairs, in pair order, with repetitions. -/
def liveHolders (pairs : List (String × CTxsVal)) : List String :=
  pairs.filterMap (fun pr => if (liveBlock pr).isSome then some pr.1 else none)

/-- Holder pair list of a document (empty when the key is absent). -/
def pairsOf (d : CDoc) : List (String × CTxsVal) := d.tx.getD []

/-- Per-document combined transaction contribution of holder h. -/
def dJoin (d : CDoc) (h : String) : List CEntry := pairsJoin h (pairsOf d)

/-- Boolean test that the document mentions holder h with a processed
pair. -/
def dLive (d : CDoc) (h : String) : Bool := anyLive h (pairsOf d)

/-- All processed entries of a document (for the global category map). -/
def gJoin (d : CDoc) : List CEntry := allPairsJoin (pairsOf d)

/-- Loaded documents of a file list, with their filename stems. -/
def loadedF (files : List FDoc) : List (String × CDoc) :=
  files.filterMap (fun f => match f with
    | .bad _ => none
    | .ok fn d => some (fn, d))

/-- Contribution of a document summary to the combined summary. -/
def docCombS (d : CDoc) : CombS :=
  match d.summary with
  | none => ⟨0, 0, 0, 0, 0⟩
  | some s => ⟨1, s.total_transactions.getD 0, s.total_amount.getD 0,
      s.purchases.getD 0, s.payments.getD 0⟩

/-- Componentwise addition of combined summaries. -/
def addCombS (a b : CombS) : CombS :=
  ⟨a.total_files_processed + b.total_files_processed,
   a.total_transactions + b.total_transactions,
   a.total_amount + b.total_amount,
   a.total_purchases + b.total_purchases,
   a.total_payments + b.total_payments⟩

/- ### Bump operations and their composition -/

/-- Category-map effect of processing the entry list l. -/
def bumpMap (m : String → Option ℚ) (l : List CEntry) : String → Option ℚ :=
  fun c => if catMem l c then some ((m c).getD 0 + lsum (entCat c) l) else m c

/-- Effect of processing the entry list l on a per-bank block of a holder
rollup. -/
def bumpCB (cb : CardBankS) (l : List CEntry) : CardBankS :=
  ⟨cb.total_transactions + lsum entCnt l, cb.total_amount + lsum entAmt l,
   cb.total_purchases + lsum entPur l, cb.total_payments + lsum entPay l⟩

/-- Effect of processing the entry list l under the given bank on a holder
rollup. -/
def bumpCardS (cs : CardS) (bank : String) (l : List CEntry) : CardS :=
  { total_transactions := cs.total_transactions + lsum entCnt l
    total_amount := cs.total_amount + lsum entAmt l
    total_purchases := cs.total_purchases + lsum entPur l
    total_payments := cs.total_payments + lsum entPay l
    banks := upd cs.banks bank (bumpCB ((cs.banks bank).getD zeroCardBankS) l)
    category_totals := bumpMap cs.category_totals l }

/-- Record a holder under a bank rollup if not already present. -/
def addCardholder (bs : BankS) (h : String) : BankS :=
  if h ∈ bs.cardholders then bs
  else { bs with cardholders := bs.cardholders ++ [h] }

/-- Record a list of holders in order. -/
def addCH (bs : BankS) (hs : List String) : BankS := hs.foldl addCardholder bs

/-- Numeric effect of a document summary on its bank rollup. -/
def sumBump (d : CDoc) (bs : BankS) : BankS :=
  match d.summary with
  | none => bs
  | some s =>
    { bs with
      total_statements := bs.total_statements + 1
      total_transactions := bs.total_transactions + s.total_transactions.getD 0
      total_amount := bs.total_amount + s.total_amount.getD 0
      total_purchases := bs.total_purchases + s.purchases.getD 0
      total_payments := bs.total_payments + s.payments.getD 0 }

/-- Whole effect of one loaded document on the rollup of bank b. -/
def bankDocAcc (b : String) (bs : BankS) (x : String × CDoc) : BankS :=
  if bankOf x.2 = b then sumBump x.2 (addCH bs (liveHolders (pairsOf x.2)))
  else bs

/-- Whole effect of one loaded document on the rollup of holder h. -/
def docBump (h : String) (cs : CardS) (x : String × CDoc) : CardS :=
  if dLive x.2 h then bumpCardS cs (bankOf x.2) (dJoin x.2 h) else cs

/- ### Small update and membership lemmas -/

theorem upd_same {α : Type} (m : String → Option α) (k : String) (v : α) :
    upd m k v k = some v := by simp [upd]

theorem upd_other {α : Type} (m : String → Option α) {k x : String} (v : α)
    (hx : x ≠ k) : upd m k v x = m x := by simp [upd, hx]

theorem upd_upd_same {α : Type} (m : String → Option α) (k : String) (v w : α) :
    upd (upd m k v) k w = upd m k w := by
  funext x
  by_cases hx : x = k <;> simp [upd, hx]

theorem bumpMap_nil (m : String → Option ℚ) : bumpMap m [] = m := by
  funext c
  simp [bumpMap, catMem]

theorem bumpMap_append (m : String → Option ℚ) (a b : List CEntry) :
    bumpMap (bumpMap m a) b = bumpMap m (a ++ b) := by
  funext c
  simp only [bumpMap, catMem_append, lsum_append]
  by_cases ha : catMem a c = true <;> by_cases hb : catMem b c = true
  · rw [if_pos hb, if_pos ha,
      if_pos (show (catMem a c || catMem b c) = true by rw [ha]; rfl),
      Option.getD_some]
    congr 1
    ring
  · rw [if_neg hb, if_pos ha,
      if_pos (show (catMem a c || catMem b c) = true by rw [ha]; rfl),
      @catMem_false_sum b c (Bool.not_eq_true _ ▸ hb)]
    congr 1
    ring
  · rw [if_pos hb, if_neg ha,
      if_pos (show (catMem a c || catMem b c) = true by rw [hb]; simp),
      @catMem_false_sum a c (Bool.not_eq_true _ ▸ ha)]
    congr 1
    ring
  · rw [if_neg hb, if_neg ha,
      if_neg (show ¬((catMem a c || catMem b c) = true) by
        rw [(Bool.not_eq_true _ ▸ ha : catMem a c = false),
          (Bool.not_eq_true _ ▸ hb : catMem b c = false)]
        simp)]

theorem bumpCB_append (cb : CardBankS) (a b : List CEntry) :
    bumpCB (bumpCB cb a) b = bumpCB cb (a ++ b) := by
  simp only [bumpCB, lsum_append, CardBankS.mk.injEq]
  refine ⟨by ring, by ring, by ring, by ring⟩

theorem bumpCardS_append (cs : CardS) (bank : String) (a b : List CEntry) :
    bumpCardS (bumpCardS cs bank a) bank b = bumpCardS cs bank (a ++ b) := by
  simp only [bumpCardS, lsum_append]
  congr 1
  · ring
  · ring
  · ring
  · ring
  · rw [upd_upd_same, upd_same, Option.getD_some, bumpCB_append]
  · rw [bumpMap_append]

theorem addCardholder_numerics (bs : BankS) (h : String) :
    (addCardholder bs h).total_statements = bs.total_statements ∧
    (addCardholder bs h).total_transactions = bs.total_transactions ∧
    (addCardholder bs h).total_amount = bs.total_amount ∧
    (addCardholder bs h).total_purchases = bs.total_purchases ∧
    (addCardholder bs h).total_payments = bs.total_payments := by
  unfold addCardholder
  split <;> exact ⟨rfl, rfl, rfl, rfl, rfl⟩

theorem mem_addCardholder (bs : BankS) (h x : String) :
    x ∈ (addCardholder bs h).cardholders ↔ x ∈ bs.cardholders ∨ x = h := by
  unfold addCardholder
  split
  · rename_i hmem
    constructor
    · exact fun hx => Or.inl hx
    · rintro (hx | rfl)
      · exact hx
      · exact hmem
  · simp

theorem addCH_nil (bs : BankS) : addCH bs [] = bs := rfl

theorem addCH_cons (bs : BankS) (h : String) (hs : List String) :
    addCH bs (h :: hs) = addCH (addCardholder bs h) hs := rfl

theorem addCH_append (bs : BankS) (hs1 hs2 : List String) :
    addCH bs (hs1 ++ hs2) = addCH (addCH bs hs1) hs2 := by
  simp [addCH, List.foldl_append]

theorem addCH_numerics (hs : List String) (bs : BankS) :
    (addCH bs hs).total_statements = bs.total_statements ∧
    (addCH bs hs).total_transactions = bs.total_transactions ∧
    (addCH bs hs).total_amount = bs.total_amount ∧
    (addCH bs hs).total_purchases = bs.total_purchases ∧
    (addCH bs hs).total_payments = bs.total_payments := by
  induction hs generalizing bs with
  | nil => exact ⟨rfl, rfl, rfl, rfl, rfl⟩
  | cons h rest ih =>
    rw [addCH_cons]
    obtain ⟨a1, a2, a3, a4, a5⟩ := addCardholder_numerics bs h
    obtain ⟨b1, b2, b3, b4, b5⟩ := ih (addCardholder bs h)
    exact ⟨b1.trans a1, b2.trans a2, b3.trans a3, b4.trans a4, b5.trans a5⟩

theorem mem_addCH (hs : List String) (bs : BankS) (x : String) :
    x ∈ (addCH bs hs).cardholders ↔ x ∈ bs.cardholders ∨ x ∈ hs := by
  induction hs generalizing bs with
  | nil => simp [addCH_nil]
  | cons h rest ih =>
    rw [addCH_cons, ih, mem_addCardholder]
    constructor
    · rintro ((hx | rfl) | hx)
      · exact Or.inl hx
      · exact Or.inr (List.mem_cons_self ..)
      · exact Or.inr (List.mem_cons_of_mem _ hx)
    · rintro (hx | hx)
      · exact Or.inl (Or.inl hx)
      · rcases List.mem_cons.mp hx with rfl | hx
        · exact Or.inl (Or.inr rfl)
        · exact Or.inr hx

theorem sumBump_cardholders (d : CDoc) (bs : BankS) :
    (sumBump d bs).cardholders = bs.cardholders := by
  unfold sumBump
  split <;> rfl

/-- Membership in liveHolders is exactly the anyLive test. -/
theorem anyLive_iff_mem (h : String) (pairs : List (String × CTxsVal)) :
    anyLive h pairs = true ↔ h ∈ liveHolders pairs := by
  unfold anyLive liveHolders
  rw [List.any_eq_true]
  constructor
  · rintro ⟨pr, hpr, hsome⟩
    rw [List.mem_filterMap]
    refine ⟨pr, hpr, ?_⟩
    unfold holderBlock at hsome
    split at hsome
    · rename_i hh
      rw [if_pos (by rwa [Option.isSome_iff_exists] at hsome ⊢), hh]
    · simp at hsome
  · intro hmem
    rw [List.mem_filterMap] at hmem
    obtain ⟨pr, hpr, hif⟩ := hmem
    split at hif
    · rename_i hsome
      rw [Option.some_inj] at hif
      refine ⟨pr, hpr, ?_⟩
      unfold holderBlock
      rw [if_pos hif]
      exact hsome
    · exact Option.noConfusion hif

/- ### Cons lemmas for the pair-level notions -/

theorem pairsJoin_cons (h : String) (pr : String × CTxsVal)
    (rest : List (String × CTxsVal)) :
    pairsJoin h (pr :: rest) =
      (match holderBlock h pr with
       | some l => l ++ pairsJoin h rest
       | none => pairsJoin h rest) := by
  unfold pairsJoin
  rw [List.filterMap_cons]
  cases holderBlock h pr with
  | none => rfl
  | some l => simp

theorem anyLive_cons (h : String) (pr : String × CTxsVal)
    (rest : List (String × CTxsVal)) :
    anyLive h (pr :: rest) = ((holderBlock h pr).isSome || anyLive h rest) := by
  simp [anyLive]

theorem anyLive_false_join {h : String} {pairs : List (String × CTxsVal)}
    (hfa : anyLive h pairs = false) : pairsJoin h pairs = [] := by
  induction pairs with
  | nil => rfl
  | cons pr rest ih =>
    rw [anyLive_cons, Bool.or_eq_false_iff] at hfa
    rw [pairsJoin_cons]
    have hb : holderBlock h pr = none := by
      rcases hcase : holderBlock h pr with _ | l
      · rfl
      · rw [hcase] at hfa
        exact absurd hfa.1 (by simp)
    rw [hb]
    exact ih hfa.2

theorem allPairsJoin_cons (pr : String × CTxsVal)
    (rest : List (String × CTxsVal)) :
    allPairsJoin (pr :: rest) =
      (match liveBlock pr with
       | some l => l ++ allPairsJoin rest
       | none => allPairsJoin rest) := by
  unfold allPairsJoin
  rw [List.filterMap_cons]
  cases liveBlock pr with
  | none => rfl
  | some l => simp

theorem liveHolders_cons (pr : String × CTxsVal)
    (rest : List (String × CTxsVal)) :
    liveHolders (pr :: rest) =
      (match liveBlock pr with
       | some _ => pr.1 :: liveHolders rest
       | none => liveHolders rest) := by
  unfold liveHolders
  rw [List.filterMap_cons]
  cases hlb : liveBlock pr with
  | none => simp [hlb]
  | some l => simp [hlb]

/- ### Effect of one pair on each observable -/

theorem pairStep_frame (bank : String) (c : Combined) (pr : String × CTxsVal) :
    (pairStep bank c pr).individual_statements = c.individual_statements ∧
    (pairStep bank c pr).combined_summary = c.combined_summary := by
  rcases pr with ⟨h0, v⟩
  cases v with
  | notlist tag => exact ⟨rfl, rfl⟩
  | lst l =>
    unfold pairStep
    simp only
    split
    · exact ⟨rfl, rfl⟩
    · exact ⟨rfl, rfl⟩

theorem pairStep_ctx (bank : String) (c : Combined) (pr : String × CTxsVal)
    (h : String) :
    (pairStep bank c pr).combined_transactions_by_cardholder h =
      (match holderBlock h pr with
       | some l => some (((c.combined_transactions_by_cardholder h).getD []) ++ l)
       | none => c.combined_transactions_by_cardholder h) := by
  rcases pr with ⟨h0, v⟩
  cases v with
  | notlist tag => simp [pairStep, holderBlock, liveBlock]
  | lst l =>
    by_cases hemp : l.isEmpty = true
    · simp [pairStep, holderBlock, liveBlock, hemp]
    · unfold pairStep
      simp only
      rw [if_neg hemp]
      unfold holderBlock liveBlock
      simp only
      rw [if_neg hemp]
      by_cases hh : h = h0
      · subst hh
        rw [if_pos rfl]
        simp [upd]
      · rw [if_neg (fun he => hh he.symm)]
        simp [upd, hh]

theorem pairStep_sbc (bank : String) (c : Combined) (pr : String × CTxsVal)
    (h : String) :
    (pairStep bank c pr).summary_by_cardholder h =
      (match holderBlock h pr with
       | some l => some (bumpCardS ((c.summary_by_cardholder h).getD zeroCardS) bank l)
       | none => c.summary_by_cardholder h) := by
  rcases pr with ⟨h0, v⟩
  cases v with
  | notlist tag => simp [pairStep, holderBlock, liveBlock]
  | lst l =>
    by_cases hemp : l.isEmpty = true
    · simp [pairStep, holderBlock, liveBlock, hemp]
    · unfold pairStep
      simp only
      rw [if_neg hemp]
      unfold holderBlock liveBlock
      simp only
      rw [if_neg hemp]
      rw [txLoop_char]
      by_cases hh : h = h0
      · subst hh
        rw [if_pos rfl, upd_same]
        congr 1
        simp only [bumpCardS, bumpCB, bumpMap, zero_add]
        rfl
      · rw [if_neg (fun he => hh he.symm)]
        simp [upd, hh]

theorem pairStep_sbb (bank : String) (c : Combined) (pr : String × CTxsVal)
    (b : String) :
    (pairStep bank c pr).summary_by_bank b =
      (match liveBlock pr with
       | some _ =>
          if b = bank
          then some (addCardholder ((c.summary_by_bank bank).getD zeroBankS) pr.1)
          else c.summary_by_bank b
       | none => c.summary_by_bank b) := by
  rcases pr with ⟨h0, v⟩
  cases v with
  | notlist tag => simp [pairStep, liveBlock]
  | lst l =>
    by_cases hemp : l.isEmpty = true
    · simp [pairStep, liveBlock, hemp]
    · unfold pairStep
      simp only
      rw [if_neg hemp]
      unfold liveBlock
      simp only
      rw [if_neg hemp]
      by_cases hb : b = bank
      · subst hb
        rw [if_pos rfl, upd_same]
        rfl
      · rw [if_neg hb]
        simp [upd, hb]

theorem pairStep_catG (bank : String) (c : Combined) (pr : String × CTxsVal) :
    (pairStep bank c pr).category_totals =
      (match liveBlock pr with
       | some l => bumpMap c.category_totals l
       | none => c.category_totals) := by
  rcases pr with ⟨h0, v⟩
  cases v with
  | notlist tag => simp [pairStep, liveBlock]
  | lst l =>
    by_cases hemp : l.isEmpty = true
    · simp [pairStep, liveBlock, hemp]
    · unfold pairStep
      simp only
      rw [if_neg hemp]
      unfold liveBlock
      simp only
      rw [if_neg hemp]
      rw [txLoop_char]
      rfl

/- ### Effect of the whole per-holder loop -/

theorem pairsFold_frame (bank : String) (pairs : List (String × CTxsVal))
    (c : Combined) :
    (pairs.foldl (pairStep bank) c).individual_statements =
      c.individual_statements ∧
    (pairs.foldl (pairStep bank) c).combined_summary = c.combined_summary := by
  induction pairs generalizing c with
  | nil => exact ⟨rfl, rfl⟩
  | cons pr rest ih =>
    rw [List.foldl_cons]
    obtain ⟨f1, f2⟩ := pairStep_frame bank c pr
    obtain ⟨g1, g2⟩ := ih (pairStep bank c pr)
    exact ⟨g1.trans f1, g2.trans f2⟩

theorem pairsFold_ctx (bank : String) (pairs : List (String × CTxsVal))
    (c : Combined) (h : String) :
    (pairs.foldl (pairStep bank) c).combined_transactions_by_cardholder h =
      (if anyLive h pairs
       then some (((c.combined_transactions_by_cardholder h).getD []) ++
         pairsJoin h pairs)
       else c.combined_transactions_by_cardholder h) := by
  induction pairs generalizing c with
  | nil => simp [anyLive, pairsJoin]
  | cons pr rest ih =>
    rw [List.foldl_cons, ih, anyLive_cons, pairsJoin_cons, pairStep_ctx]
    rcases hhb : holderBlock h pr with _ | l
    · simp only [hhb, Option.isSome_none, Bool.false_or]
    · simp only [hhb, Option.isSome_some, Bool.true_or, Option.getD_some]
      try rw [if_pos rfl]
      try rw [if_pos trivial]
      by_cases hr : anyLive h rest = true
      · rw [if_pos hr, List.append_assoc]
      · rw [if_neg hr, anyLive_false_join (Bool.not_eq_true _ ▸ hr),
          List.append_nil]

theorem pairsFold_sbc (bank : String) (pairs : List (String × CTxsVal))
    (c : Combined) (h : String) :
    (pairs.foldl (pairStep bank) c).summary_by_cardholder h =
      (if anyLive h pairs
       then some (bumpCardS ((c.summary_by_cardholder h).getD zeroCardS) bank
         (pairsJoin h pairs))
       else c.summary_by_cardholder h) := by
  induction pairs generalizing c with
  | nil => simp [anyLive, pairsJoin]
  | cons pr rest ih =>
    rw [List.foldl_cons, ih, anyLive_cons, pairsJoin_cons, pairStep_sbc]
    rcases hhb : holderBlock h pr with _ | l
    · simp only [hhb, Option.isSome_none, Bool.false_or]
    · simp only [hhb, Option.isSome_some, Bool.true_or, Option.getD_some]
      try rw [if_pos rfl]
      try rw [if_pos trivial]
      by_cases hr : anyLive h rest = true
      · rw [if_pos hr, bumpCardS_append]
      · rw [if_neg hr, anyLive_false_join (Bool.not_eq_true _ ▸ hr),
          List.append_nil]

theorem pairsFold_sbb_other (bank : String) (pairs : List (String × CTxsVal))
    (c : Combined) (b : String) (hb : b ≠ bank) :
    (pairs.foldl (pairStep bank) c).summary_by_bank b = c.summary_by_bank b := by
  induction pairs generalizing c with
  | nil => rfl
  | cons pr rest ih =>
    rw [List.foldl_cons, ih, pairStep_sbb]
    rcases hlb : liveBlock pr with _ | l
    · simp only [hlb]
    · simp only [hlb]
      rw [if_neg hb]

theorem pairsFold_sbb_bank (bank : String) (pairs : List (String × CTxsVal))
    (c : Combined) :
    (pairs.foldl (pairStep bank) c).summary_by_bank bank =
      (if (liveHolders pairs).isEmpty
       then c.summary_by_bank bank
       else some (addCH ((c.summary_by_bank bank).getD zeroBankS)
         (liveHolders pairs))) := by
  induction pairs generalizing c with
  | nil => simp [liveHolders]
  | cons pr rest ih =>
    rw [List.foldl_cons, ih, liveHolders_cons, pairStep_sbb]
    rcases hlb : liveBlock pr with _ | l
    · simp only [hlb]
    · simp only [hlb, List.isEmpty_cons]
      try rw [if_pos rfl]
      try rw [if_pos trivial]
      by_cases hr : (liveHolders rest).isEmpty = true
      · rw [if_pos hr]
        try rw [if_neg (show ¬(false = true) by simp)]
        rw [List.isEmpty_iff] at hr
        rw [hr, addCH_cons, addCH_nil]
      · rw [if_neg hr]
        try rw [if_neg (show ¬(false = true) by simp)]
        rw [Option.getD_some, addCH_cons]

theorem pairsFold_catG (bank : String) (pairs : List (String × CTxsVal))
    (c : Combined) :
    (pairs.foldl (pairStep bank) c).category_totals =
      bumpMap c.category_totals (allPairsJoin pairs) := by
  induction pairs generalizing c with
  | nil => rw [List.foldl_nil, show allPairsJoin [] = [] from rfl, bumpMap_nil]
  | cons pr rest ih =>
    rw [List.foldl_cons, ih, allPairsJoin_cons]
    have hcg := pairStep_catG bank c pr
    rcases hlb : liveBlock pr with _ | l
    · simp only [hlb] at hcg
      rw [hcg]
    · simp only [hlb] at hcg
      rw [hcg, bumpMap_append]

/- ### Effect of one loaded document on each observable -/

theorem docStep_ind (c : Combined) (fn : String) (d : CDoc) :
    (docStep c (.ok fn d)).individual_statements =
      c.individual_statements ++ [(fn, d)] := by
  obtain ⟨dtx, dsum⟩ := d
  cases dsum <;> cases dtx <;>
    simp only [docStep, bankInit] <;> split <;>
    first
      | rfl
      | exact (pairsFold_frame _ _ _).1.trans rfl

theorem docStep_cs (c : Combined) (fn : String) (d : CDoc) :
    (docStep c (.ok fn d)).combined_summary =
      addCombS c.combined_summary (docCombS d) := by
  obtain ⟨dtx, dsum⟩ := d
  cases dsum with
  | none =>
    have hz : ∀ a : CombS, addCombS a (docCombS ⟨dtx, none⟩) = a := by
      rintro ⟨a1, a2, a3, a4, a5⟩
      simp [addCombS, docCombS]
    rw [hz]
    cases dtx <;> simp only [docStep, bankInit] <;> split <;>
      first
        | rfl
        | exact (pairsFold_frame _ _ _).2.trans rfl
  | some s =>
    cases dtx with
    | none =>
      simp only [docStep, bankInit]
      split <;> simp [addCombS, docCombS]
    | some pairs =>
      simp only [docStep, bankInit]
      split <;>
      · rw [show (List.foldl (pairStep (bankOf ⟨some pairs, some s⟩)) _ pairs).combined_summary
            = _ from (pairsFold_frame _ _ _).2]
        simp [addCombS, docCombS]

theorem docStep_ctx (c : Combined) (fn : String) (d : CDoc) (h : String) :
    (docStep c (.ok fn d)).combined_transactions_by_cardholder h =
      (if dLive d h
       then some (((c.combined_transactions_by_cardholder h).getD []) ++ dJoin d h)
       else c.combined_transactions_by_cardholder h) := by
  obtain ⟨dtx, dsum⟩ := d
  cases dtx with
  | none =>
    rw [show dLive ⟨none, dsum⟩ h = false from rfl, if_neg (by simp)]
    cases dsum <;> simp only [docStep, bankInit] <;> split <;> rfl
  | some pairs =>
    rw [show dLive ⟨some pairs, dsum⟩ h = anyLive h pairs from rfl,
      show dJoin ⟨some pairs, dsum⟩ h = pairsJoin h pairs from rfl]
    cases dsum <;> simp only [docStep, bankInit] <;> split <;>
      exact (pairsFold_ctx _ pairs _ h).trans rfl

theorem docStep_sbc (c : Combined) (fn : String) (d : CDoc) (h : String) :
    (docStep c (.ok fn d)).summary_by_cardholder h =
      (if dLive d h
       then some (bumpCardS ((c.summary_by_cardholder h).getD zeroCardS)
         (bankOf d) (dJoin d h))
       else c.summary_by_cardholder h) := by
  obtain ⟨dtx, dsum⟩ := d
  cases dtx with
  | none =>
    rw [show dLive ⟨none, dsum⟩ h = false from rfl, if_neg (by simp)]
    cases dsum <;> simp only [docStep, bankInit] <;> split <;> rfl
  | some pairs =>
    rw [show dLive ⟨some pairs, dsum⟩ h = anyLive h pairs from rfl,
      show dJoin ⟨some pairs, dsum⟩ h = pairsJoin h pairs from rfl]
    cases dsum <;> simp only [docStep, bankInit] <;> split <;>
      exact (pairsFold_sbc _ pairs _ h).trans rfl

theorem docStep_catG (c : Combined) (fn : String) (d : CDoc) :
    (docStep c (.ok fn d)).category_totals =
      bumpMap c.category_totals (gJoin d) := by
  obtain ⟨dtx, dsum⟩ := d
  cases dtx with
  | none =>
    rw [show gJoin ⟨none, dsum⟩ = [] from rfl, bumpMap_nil]
    cases dsum <;> simp only [docStep, bankInit] <;> split <;> rfl
  | some pairs =>
    rw [show gJoin ⟨some pairs, dsum⟩ = allPairsJoin pairs from rfl]
    cases dsum <;> simp only [docStep, bankInit] <;> split <;>
      exact (pairsFold_catG _ pairs _).trans rfl

theorem docStep_sbb_other (c : Combined) (fn : String) (d : CDoc) (b : String)
    (hb : b ≠ bankOf d) :
    (docStep c (.ok fn d)).summary_by_bank b = c.summary_by_bank b := by
  obtain ⟨dtx, dsum⟩ := d
  cases dsum with
  | none =>
    cases dtx with
    | none =>
      simp only [docStep, bankInit]
      split
      · rfl
      · exact upd_other _ _ hb
    | some pairs =>
      simp only [docStep, bankInit]
      split <;>
        rw [pairsFold_sbb_other _ pairs _ b hb] <;>
        first
          | rfl
          | exact upd_other _ _ hb
  | some s =>
    cases dtx with
    | none =>
      simp only [docStep, bankInit]
      split <;>
        rw [upd_other _ _ hb] <;>
        first
          | rfl
          | exact upd_other _ _ hb
    | some pairs =>
      simp only [docStep, bankInit]
      split <;>
        rw [upd_other _ _ hb, pairsFold_sbb_other _ pairs _ b hb] <;>
        first
          | rfl
          | exact upd_other _ _ hb

theorem bankInit_sbb (bank : String) (cc : Combined) :
    (bankInit bank cc).summary_by_bank bank =
      some ((cc.summary_by_bank bank).getD zeroBankS) := by
  unfold bankInit
  split
  · rename_i hs
    rw [Option.isSome_iff_exists] at hs
    obtain ⟨bs, hbs⟩ := hs
    rw [hbs]
    rfl
  · rename_i hs
    rw [Option.not_isSome_iff_eq_none] at hs
    simp only [upd_same, hs]
    rfl

theorem docStep_sbb_bank (c : Combined) (fn : String) (d : CDoc) :
    (docStep c (.ok fn d)).summary_by_bank (bankOf d) =
      some (sumBump d (addCH ((c.summary_by_bank (bankOf d)).getD zeroBankS)
        (liveHolders (pairsOf d)))) := by
  obtain ⟨dtx, dsum⟩ := d
  cases dsum with
  | none =>
    cases dtx with
    | none =>
      simp only [docStep]
      exact (bankInit_sbb _ _).trans rfl
    | some pairs =>
      simp only [docStep]
      rw [pairsFold_sbb_bank, bankInit_sbb]
      by_cases hl : (liveHolders pairs).isEmpty = true
      · rw [if_pos hl]
        rw [List.isEmpty_iff] at hl
        rw [show liveHolders (pairsOf (⟨some pairs, none⟩ : CDoc)) =
            liveHolders pairs from rfl, hl, addCH_nil]
        rfl
      · rw [if_neg hl, Option.getD_some]
        rfl
  | some s =>
    cases dtx with
    | none =>
      simp only [docStep]
      rw [upd_same, bankInit_sbb, Option.getD_some]
      rfl
    | some pairs =>
      simp only [docStep]
      rw [upd_same, pairsFold_sbb_bank, bankInit_sbb]
      by_cases hl : (liveHolders pairs).isEmpty = true
      · rw [if_pos hl, Option.getD_some]
        rw [List.isEmpty_iff] at hl
        rw [show liveHolders (pairsOf (⟨some pairs, some s⟩ : CDoc)) =
            liveHolders pairs from rfl, hl, addCH_nil]
        rfl
      · rw [if_neg hl, Option.getD_some, Option.getD_some]
        rfl

/- ### File-list level characterizations -/

/-- Componentwise sums of the document summaries of a loaded list. -/
def sumCombS (xs : List (String × CDoc)) : CombS :=
  ⟨(xs.map (fun x => (docCombS x.2).total_files_processed)).sum,
   (xs.map (fun x => (docCombS x.2).total_transactions)).sum,
   (xs.map (fun x => (docCombS x.2).total_amount)).sum,
   (xs.map (fun x => (docCombS x.2).total_purchases)).sum,
   (xs.map (fun x => (docCombS x.2).total_payments)).sum⟩

theorem loadedF_nil : loadedF [] = [] := rfl

theorem loadedF_cons_bad (t : Nat) (rest : List FDoc) :
    loadedF (.bad t :: rest) = loadedF rest := by simp [loadedF]

theorem loadedF_cons_ok (fn : String) (d : CDoc) (rest : List FDoc) :
    loadedF (.ok fn d :: rest) = (fn, d) :: loadedF rest := by simp [loadedF]

theorem addCombS_zero_right (a : CombS) : addCombS a ⟨0, 0, 0, 0, 0⟩ = a := by
  obtain ⟨a1, a2, a3, a4, a5⟩ := a
  simp [addCombS]

theorem addCombS_assoc (a b c : CombS) :
    addCombS (addCombS a b) c = addCombS a (addCombS b c) := by
  simp [addCombS, add_assoc]

theorem sumCombS_nil : sumCombS [] = ⟨0, 0, 0, 0, 0⟩ := rfl

theorem sumCombS_cons (x : String × CDoc) (xs : List (String × CDoc)) :
    sumCombS (x :: xs) = addCombS (docCombS x.2) (sumCombS xs) := by
  simp [sumCombS, addCombS]

theorem docBumpFold_id {h : String} {xs : List (String × CDoc)}
    (hall : xs.any (fun x => dLive x.2 h) = false) (cs : CardS) :
    xs.foldl (docBump h) cs = cs := by
  induction xs generalizing cs with
  | nil => rfl
  | cons x rest ih =>
    rw [List.any_cons, Bool.or_eq_false_iff] at hall
    rw [List.foldl_cons, show docBump h cs x = cs from by
      unfold docBump
      rw [hall.1]
      rfl]
    exact ih hall.2 cs

theorem bankAccFold_id {b : String} {xs : List (String × CDoc)}
    (hall : xs.any (fun x => bankOf x.2 == b) = false) (bs : BankS) :
    xs.foldl (bankDocAcc b) bs = bs := by
  induction xs generalizing bs with
  | nil => rfl
  | cons x rest ih =>
    rw [List.any_cons, Bool.or_eq_false_iff] at hall
    have hne : bankOf x.2 ≠ b := by
      have := hall.1
      simpa [beq_eq_false_iff_ne] using this
    rw [List.foldl_cons, show bankDocAcc b bs x = bs from by
      unfold bankDocAcc
      rw [if_neg hne]]
    exact ih hall.2 bs

theorem flatten_dJoin_nil {h : String} {xs : List (String × CDoc)}
    (hall : xs.any (fun x => dLive x.2 h) = false) :
    (xs.map (fun x => dJoin x.2 h)).flatten = [] := by
  induction xs with
  | nil => rfl
  | cons x rest ih =>
    rw [List.any_cons, Bool.or_eq_false_iff] at hall
    rw [List.map_cons, List.flatten_cons,
      show dJoin x.2 h = [] from anyLive_false_join hall.1, List.nil_append]
    exact ih hall.2

theorem filesFold_ind (files : List FDoc) (c : Combined) :
    (files.foldl docStep c).individual_statements =
      c.individual_statements ++ loadedF files := by
  induction files generalizing c with
  | nil => simp [loadedF_nil]
  | cons f rest ih =>
    cases f with
    | bad t =>
      rw [List.foldl_cons, show docStep c (.bad t) = c from rfl, ih,
        loadedF_cons_bad]
    | ok fn d =>
      rw [List.foldl_cons, ih, docStep_ind, loadedF_cons_ok]
      simp

theorem filesFold_cs (files : List FDoc) (c : Combined) :
    (files.foldl docStep c).combined_summary =
      addCombS c.combined_summary (sumCombS (loadedF files)) := by
  induction files generalizing c with
  | nil => rw [List.foldl_nil, loadedF_nil, sumCombS_nil, addCombS_zero_right]
  | cons f rest ih =>
    cases f with
    | bad t =>
      rw [List.foldl_cons, show docStep c (.bad t) = c from rfl, ih,
        loadedF_cons_bad]
    | ok fn d =>
      rw [List.foldl_cons, ih, docStep_cs, addCombS_assoc, loadedF_cons_ok,
        sumCombS_cons]

theorem filesFold_ctx (files : List FDoc) (c : Combined) (h : String) :
    (files.foldl docStep c).combined_transactions_by_cardholder h =
      (if (loadedF files).any (fun x => dLive x.2 h)
       then some (((c.combined_transactions_by_cardholder h).getD []) ++
         ((loadedF files).map (fun x => dJoin x.2 h)).flatten)
       else c.combined_transactions_by_cardholder h) := by
  induction files generalizing c with
  | nil => simp [loadedF_nil]
  | cons f rest ih =>
    cases f with
    | bad t =>
      rw [List.foldl_cons, show docStep c (.bad t) = c from rfl, ih,
        loadedF_cons_bad]
    | ok fn d =>
      rw [List.foldl_cons, ih, docStep_ctx, loadedF_cons_ok]
      simp only [List.any_cons, List.map_cons, List.flatten_cons]
      by_cases hd : dLive d h = true
      · rw [if_pos hd]
        simp only [hd, Bool.true_or]
        rw [if_pos trivial]
        by_cases hr : (loadedF rest).any (fun x => dLive x.2 h) = true
        · rw [if_pos hr, Option.getD_some, List.append_assoc]
        · rw [if_neg hr, flatten_dJoin_nil (Bool.not_eq_true _ ▸ hr),
            List.append_nil]
      · rw [if_neg hd]
        simp only [hd, Bool.false_or]
        rw [show dJoin d h = [] from
          anyLive_false_join (Bool.not_eq_true _ ▸ hd), List.nil_append]

theorem filesFold_sbc (files : List FDoc) (c : Combined) (h : String) :
    (files.foldl docStep c).summary_by_cardholder h =
      (if (loadedF files).any (fun x => dLive x.2 h)
       then some ((loadedF files).foldl (docBump h)
         ((c.summary_by_cardholder h).getD zeroCardS))
       else c.summary_by_cardholder h) := by
  induction files generalizing c with
  | nil => simp [loadedF_nil]
  | cons f rest ih =>
    cases f with
    | bad t =>
      rw [List.foldl_cons, show docStep c (.bad t) = c from rfl, ih,
        loadedF_cons_bad]
    | ok fn d =>
      rw [List.foldl_cons, ih, docStep_sbc, loadedF_cons_ok]
      simp only [List.any_cons, List.foldl_cons]
      by_cases hd : dLive d h = true
      · rw [if_pos hd]
        simp only [hd, Bool.true_or]
        rw [if_pos trivial]
        have hstep : docBump h ((c.summary_by_cardholder h).getD zeroCardS) (fn, d) =
            bumpCardS ((c.summary_by_cardholder h).getD zeroCardS) (bankOf d)
              (dJoin d h) := by
          unfold docBump
          rw [if_pos hd]
        rw [hstep]
        by_cases hr : (loadedF rest).any (fun x => dLive x.2 h) = true
        · rw [if_pos hr, Option.getD_some]
        · rw [if_neg hr, docBumpFold_id (Bool.not_eq_true _ ▸ hr)]
      · rw [if_neg hd]
        simp only [hd, Bool.false_or]
        rw [show docBump h ((c.summary_by_cardholder h).getD zeroCardS) (fn, d) =
            ((c.summary_by_cardholder h).getD zeroCardS) from by
          unfold docBump
          rw [if_neg hd]]

theorem filesFold_catG (files : List FDoc) (c : Combined) :
    (files.foldl docStep c).category_totals =
      bumpMap c.category_totals
        (((loadedF files).map (fun x => gJoin x.2)).flatten) := by
  induction files generalizing c with
  | nil => rw [List.foldl_nil, loadedF_nil, List.map_nil, List.flatten_nil,
      bumpMap_nil]
  | cons f rest ih =>
    cases f with
    | bad t =>
      rw [List.foldl_cons, show docStep c (.bad t) = c from rfl, ih,
        loadedF_cons_bad]
    | ok fn d =>
      rw [List.foldl_cons, ih, docStep_catG, bumpMap_append, loadedF_cons_ok,
        List.map_cons, List.flatten_cons]

theorem filesFold_sbb (files : List FDoc) (c : Combined) (b : String) :
    (files.foldl docStep c).summary_by_bank b =
      (if (loadedF files).any (fun x => bankOf x.2 == b)
       then some ((loadedF files).foldl (bankDocAcc b)
         ((c.summary_by_bank b).getD zeroBankS))
       else c.summary_by_bank b) := by
  induction files generalizing c with
  | nil => simp [loadedF_nil]
  | cons f rest ih =>
    cases f with
    | bad t =>
      rw [List.foldl_cons, show docStep c (.bad t) = c from rfl, ih,
        loadedF_cons_bad]
    | ok fn d =>
      rw [List.foldl_cons, ih, loadedF_cons_ok]
      simp only [List.any_cons, List.foldl_cons]
      by_cases hbk : bankOf d = b
      · subst hbk
        rw [docStep_sbb_bank]
        simp only [beq_self_eq_true, Bool.true_or]
        rw [if_pos trivial]
        have hstep : bankDocAcc (bankOf d)
            ((c.summary_by_bank (bankOf d)).getD zeroBankS) (fn, d) =
            sumBump d (addCH ((c.summary_by_bank (bankOf d)).getD zeroBankS)
              (liveHolders (pairsOf d))) := by
          unfold bankDocAcc
          rw [if_pos rfl]
        rw [hstep]
        by_cases hr : (loadedF rest).any (fun x => bankOf x.2 == bankOf d) = true
        · rw [if_pos hr, Option.getD_some]
        · rw [if_neg hr, bankAccFold_id (Bool.not_eq_true _ ▸ hr)]
      · rw [docStep_sbb_other _ _ _ _ (fun he => hbk he.symm)]
        have hbeq : (bankOf d == b) = false := by
          simpa [beq_eq_false_iff_ne] using hbk
        simp only [hbeq, Bool.false_or]
        rw [show bankDocAcc b ((c.summary_by_bank b).getD zeroBankS) (fn, d) =
            ((c.summary_by_bank b).getD zeroBankS) from by
          unfold bankDocAcc
          rw [if_neg hbk]]

/- ### Expansion of the per-holder accumulator fold -/

theorem docBump_scalars (h : String) (cs : CardS) (x : String × CDoc) :
    (docBump h cs x).total_transactions =
      cs.total_transactions + lsum entCnt (dJoin x.2 h) ∧
    (docBump h cs x).total_amount = cs.total_amount + lsum entAmt (dJoin x.2 h) ∧
    (docBump h cs x).total_purchases =
      cs.total_purchases + lsum entPur (dJoin x.2 h) ∧
    (docBump h cs x).total_payments =
      cs.total_payments + lsum entPay (dJoin x.2 h) := by
  unfold docBump
  by_cases hd : dLive x.2 h = true
  · rw [if_pos hd]
    exact ⟨rfl, rfl, rfl, rfl⟩
  · rw [if_neg hd]
    rw [show dJoin x.2 h = [] from
      anyLive_false_join (Bool.not_eq_true _ ▸ hd)]
    simp [lsum_nil]

theorem cardFold_cnt (xs : List (String × CDoc)) (h : String) (cs : CardS) :
    (xs.foldl (docBump h) cs).total_transactions =
      cs.total_transactions + (xs.map (fun x => lsum entCnt (dJoin x.2 h))).sum := by
  induction xs generalizing cs with
  | nil => simp
  | cons x rest ih =>
    rw [List.foldl_cons, ih, (docBump_scalars h cs x).1, List.map_cons,
      List.sum_cons, add_assoc]

theorem cardFold_amt (xs : List (String × CDoc)) (h : String) (cs : CardS) :
    (xs.foldl (docBump h) cs).total_amount =
      cs.total_amount + (xs.map (fun x => lsum entAmt (dJoin x.2 h))).sum := by
  induction xs generalizing cs with
  | nil => simp
  | cons x rest ih =>
    rw [List.foldl_cons, ih, (docBump_scalars h cs x).2.1, List.map_cons,
      List.sum_cons, add_assoc]

theorem cardFold_pur (xs : List (String × CDoc)) (h : String) (cs : CardS) :
    (xs.foldl (docBump h) cs).total_purchases =
      cs.total_purchases + (xs.map (fun x => lsum entPur (dJoin x.2 h))).sum := by
  induction xs generalizing cs with
  | nil => simp
  | cons x rest ih =>
    rw [List.foldl_cons, ih, (docBump_scalars h cs x).2.2.1, List.map_cons,
      List.sum_cons, add_assoc]

theorem cardFold_pay (xs : List (String × CDoc)) (h : String) (cs : CardS) :
    (xs.foldl (docBump h) cs).total_payments =
      cs.total_payments + (xs.map (fun x => lsum entPay (dJoin x.2 h))).sum := by
  induction xs generalizing cs with
  | nil => simp
  | cons x rest ih =>
    rw [List.foldl_cons, ih, (docBump_scalars h cs x).2.2.2, List.map_cons,
      List.sum_cons, add_assoc]

theorem docBump_cats (h ct : String) (cs : CardS) (x : String × CDoc) :
    (docBump h cs x).category_totals ct =
      (if catMem (dJoin x.2 h) ct
       then some (((cs.category_totals ct).getD 0) + lsum (entCat ct) (dJoin x.2 h))
       else cs.category_totals ct) := by
  unfold docBump
  by_cases hd : dLive x.2 h = true
  · rw [if_pos hd]
    rfl
  · rw [if_neg hd]
    rw [show dJoin x.2 h = [] from
      anyLive_false_join (Bool.not_eq_true _ ▸ hd)]
    rw [catMem_nil]
    rfl

theorem catSum_zero {ct : String} {h : String} {xs : List (String × CDoc)}
    (hall : xs.any (fun x => catMem (dJoin x.2 h) ct) = false) :
    (xs.map (fun x => lsum (entCat ct) (dJoin x.2 h))).sum = 0 := by
  induction xs with
  | nil => rfl
  | cons x rest ih =>
    rw [List.any_cons, Bool.or_eq_false_iff] at hall
    rw [List.map_cons, List.sum_cons, catMem_false_sum hall.1, ih hall.2,
      add_zero]

theorem cardFold_cats (xs : List (String × CDoc)) (h ct : String) (cs : CardS) :
    (xs.foldl (docBump h) cs).category_totals ct =
      (if xs.any (fun x => catMem (dJoin x.2 h) ct)
       then some (((cs.category_totals ct).getD 0) +
         (xs.map (fun x => lsum (entCat ct) (dJoin x.2 h))).sum)
       else cs.category_totals ct) := by
  induction xs generalizing cs with
  | nil => simp
  | cons x rest ih =>
    rw [List.foldl_cons, ih, List.any_cons, List.map_cons, List.sum_cons]
    have hstep := docBump_cats h ct cs x
    by_cases hm : catMem (dJoin x.2 h) ct = true
    · rw [hstep, if_pos hm]
      simp only [hm, Bool.true_or]
      rw [if_pos trivial]
      by_cases hr : rest.any (fun x => catMem (dJoin x.2 h) ct) = true
      · rw [if_pos hr, Option.getD_some]
        congr 1
        ring
      · rw [if_neg hr, catSum_zero (Bool.not_eq_true _ ▸ hr)]
        congr 1
        ring
    · rw [hstep, if_neg hm]
      simp only [hm, Bool.false_or]
      rw [catMem_false_sum (Bool.not_eq_true _ ▸ hm), zero_add]

theorem docBump_banks (h b : String) (cs : CardS) (x : String × CDoc) :
    (docBump h cs x).banks b =
      (if dLive x.2 h && (bankOf x.2 == b)
       then some (bumpCB (((cs.banks b).getD zeroCardBankS)) (dJoin x.2 h))
       else cs.banks b) := by
  unfold docBump
  by_cases hd : dLive x.2 h = true
  · rw [if_pos hd]
    simp only [hd, Bool.true_and]
    by_cases hb : bankOf x.2 = b
    · rw [if_pos (by simp [hb]), show bumpCardS cs (bankOf x.2) (dJoin x.2 h) =
          bumpCardS cs b (dJoin x.2 h) from by rw [hb]]
      simp only [bumpCardS]
      rw [upd_same]
    · rw [if_neg (by simp [hb])]
      simp only [bumpCardS]
      exact upd_other _ _ (fun he => hb he.symm)
  · rw [if_neg hd]
    simp only [Bool.not_eq_true _ ▸ hd, Bool.false_and]
    rfl

theorem bankSum_zero {b : String} {h : String} {f : CEntry → ℚ}
    {xs : List (String × CDoc)}
    (hall : xs.any (fun x => dLive x.2 h && (bankOf x.2 == b)) = false) :
    (xs.map (fun x => if bankOf x.2 = b then lsum f (dJoin x.2 h) else 0)).sum
      = 0 := by
  induction xs with
  | nil => rfl
  | cons x rest ih =>
    rw [List.any_cons, Bool.or_eq_false_iff] at hall
    rw [List.map_cons, List.sum_cons, ih hall.2, add_zero]
    have h1 := hall.1
    rw [Bool.and_eq_false_iff] at h1
    by_cases hb : bankOf x.2 = b
    · rw [if_pos hb]
      rcases h1 with h1 | h1
      · rw [show dJoin x.2 h = [] from anyLive_false_join h1, lsum_nil]
      · rw [beq_eq_false_iff_ne] at h1
        exact absurd hb h1
    · rw [if_neg hb]

theorem cardFold_banks (xs : List (String × CDoc)) (h b : String) (cs : CardS) :
    (xs.foldl (docBump h) cs).banks b =
      (if xs.any (fun x => dLive x.2 h && (bankOf x.2 == b))
       then some
         ⟨((cs.banks b).getD zeroCardBankS).total_transactions +
            (xs.map (fun x => if bankOf x.2 = b
              then lsum entCnt (dJoin x.2 h) else 0)).sum,
          ((cs.banks b).getD zeroCardBankS).total_amount +
            (xs.map (fun x => if bankOf x.2 = b
              then lsum entAmt (dJoin x.2 h) else 0)).sum,
          ((cs.banks b).getD zeroCardBankS).total_purchases +
            (xs.map (fun x => if bankOf x.2 = b
              then lsum entPur (dJoin x.2 h) else 0)).sum,
          ((cs.banks b).getD zeroCardBankS).total_payments +
            (xs.map (fun x => if bankOf x.2 = b
              then lsum entPay (dJoin x.2 h) else 0)).sum⟩
       else cs.banks b) := by
  induction xs generalizing cs with
  | nil => simp
  | cons x rest ih =>
    rw [List.foldl_cons, ih, List.any_cons]
    simp only [List.map_cons, List.sum_cons]
    have hstep := docBump_banks h b cs x
    by_cases hm : (dLive x.2 h && (bankOf x.2 == b)) = true
    · have hb : bankOf x.2 = b := by
        rw [Bool.and_eq_true] at hm
        exact beq_iff_eq.mp hm.2
      rw [hstep, if_pos hm]
      simp only [hm, Bool.true_or]
      rw [if_pos trivial]
      have hif : ∀ f : CEntry → ℚ,
          (if bankOf x.2 = b then lsum f (dJoin x.2 h) else 0) =
            lsum f (dJoin x.2 h) := fun f => if_pos hb
      rw [hif entCnt, hif entAmt, hif entPur, hif entPay]
      by_cases hr : rest.any (fun y => dLive y.2 h && (bankOf y.2 == b)) = true
      · rw [if_pos hr, Option.getD_some]
        simp only [bumpCB]
        congr 1 <;> ring
      · rw [if_neg hr]
        have hz := fun f =>
          @bankSum_zero b h f rest (Bool.not_eq_true _ ▸ hr)
        rw [hz entCnt, hz entAmt, hz entPur, hz entPay]
        simp only [bumpCB]
        congr 1 <;> ring
    · rw [hstep, if_neg hm]
      simp only [hm, Bool.false_or]
      have hm2 : (dLive x.2 h && (bankOf x.2 == b)) = false :=
        Bool.not_eq_true _ ▸ hm
      have hcontrib : ∀ f : CEntry → ℚ,
          (if bankOf x.2 = b then lsum f (dJoin x.2 h) else 0) = 0 := by
        intro f
        rw [Bool.and_eq_false_iff] at hm2
        by_cases hb : bankOf x.2 = b
        · rw [if_pos hb]
          rcases hm2 with hm2 | hm2
          · rw [show dJoin x.2 h = [] from anyLive_false_join hm2, lsum_nil]
          · rw [beq_eq_false_iff_ne] at hm2
            exact absurd hb hm2
        · rw [if_neg hb]
      rw [hcontrib entCnt, hcontrib entAmt, hcontrib entPur, hcontrib entPay]
      simp only [zero_add]

/- ### Expansion of the per-bank accumulator fold -/

theorem bankDocAcc_effect (b : String) (bs : BankS) (x : String × CDoc) :
    ((bankDocAcc b bs x).total_statements = bs.total_statements +
        (if bankOf x.2 = b then (docCombS x.2).total_files_processed else 0)) ∧
    ((bankDocAcc b bs x).total_transactions = bs.total_transactions +
        (if bankOf x.2 = b then (docCombS x.2).total_transactions else 0)) ∧
    ((bankDocAcc b bs x).total_amount = bs.total_amount +
        (if bankOf x.2 = b then (docCombS x.2).total_amount else 0)) ∧
    ((bankDocAcc b bs x).total_purchases = bs.total_purchases +
        (if bankOf x.2 = b then (docCombS x.2).total_purchases else 0)) ∧
    ((bankDocAcc b bs x).total_payments = bs.total_payments +
        (if bankOf x.2 = b then (docCombS x.2).total_payments else 0)) ∧
    (∀ hh : String, hh ∈ (bankDocAcc b bs x).cardholders ↔
        hh ∈ bs.cardholders ∨
          (bankOf x.2 = b ∧ anyLive hh (pairsOf x.2) = true)) := by
  unfold bankDocAcc
  by_cases hb : bankOf x.2 = b
  · rw [if_pos hb]
    obtain ⟨n1, n2, n3, n4, n5⟩ := addCH_numerics (liveHolders (pairsOf x.2)) bs
    rcases hsum : x.2.summary with _ | sv
    · have hid : sumBump x.2 (addCH bs (liveHolders (pairsOf x.2))) =
          addCH bs (liveHolders (pairsOf x.2)) := by
        unfold sumBump
        rw [hsum]
      rw [hid]
      refine ⟨?_, ?_, ?_, ?_, ?_, ?_⟩
      · rw [n1, if_pos hb, show (docCombS x.2).total_files_processed = 0 from by
          unfold docCombS
          rw [hsum], add_zero]
      · rw [n2, if_pos hb, show (docCombS x.2).total_transactions = 0 from by
          unfold docCombS
          rw [hsum], add_zero]
      · rw [n3, if_pos hb, show (docCombS x.2).total_amount = 0 from by
          unfold docCombS
          rw [hsum], add_zero]
      · rw [n4, if_pos hb, show (docCombS x.2).total_purchases = 0 from by
          unfold docCombS
          rw [hsum], add_zero]
      · rw [n5, if_pos hb, show (docCombS x.2).total_payments = 0 from by
          unfold docCombS
          rw [hsum], add_zero]
      · intro hh
        rw [mem_addCH, anyLive_iff_mem]
        constructor
        · rintro (hm | hm)
          · exact Or.inl hm
          · exact Or.inr ⟨hb, hm⟩
        · rintro (hm | ⟨-, hm⟩)
          · exact Or.inl hm
          · exact Or.inr hm
    · have hbump : sumBump x.2 (addCH bs (liveHolders (pairsOf x.2))) =
          { addCH bs (liveHolders (pairsOf x.2)) with
            total_statements :=
              (addCH bs (liveHolders (pairsOf x.2))).total_statements + 1
            total_transactions :=
              (addCH bs (liveHolders (pairsOf x.2))).total_transactions +
                sv.total_transactions.getD 0
            total_amount :=
              (addCH bs (liveHolders (pairsOf x.2))).total_amount +
                sv.total_amount.getD 0
            total_purchases :=
              (addCH bs (liveHolders (pairsOf x.2))).total_purchases +
                sv.purchases.getD 0
            total_payments :=
              (addCH bs (liveHolders (pairsOf x.2))).total_payments +
                sv.payments.getD 0 } := by
        unfold sumBump
        rw [hsum]
      rw [hbump]
      have hdc : docCombS x.2 = ⟨1, sv.total_transactions.getD 0,
          sv.total_amount.getD 0, sv.purchases.getD 0, sv.payments.getD 0⟩ := by
        unfold docCombS
        rw [hsum]
      refine ⟨?_, ?_, ?_, ?_, ?_, ?_⟩
      · rw [show ({ addCH bs (liveHolders (pairsOf x.2)) with
            total_statements :=
              (addCH bs (liveHolders (pairsOf x.2))).total_statements + 1
            total_transactions :=
              (addCH bs (liveHolders (pairsOf x.2))).total_transactions +
                sv.total_transactions.getD 0
            total_amount :=
              (addCH bs (liveHolders (pairsOf x.2))).total_amount +
                sv.total_amount.getD 0
            total_purchases :=
              (addCH bs (liveHolders (pairsOf x.2))).total_purchases +
                sv.purchases.getD 0
            total_payments :=
              (addCH bs (liveHolders (pairsOf x.2))).total_payments +
                sv.payments.getD 0 } : BankS).total_statements =
            (addCH bs (liveHolders (pairsOf x.2))).total_statements + 1 from rfl,
          n1, if_pos hb, hdc]
      · rw [show (docCombS x.2).total_transactions =
            sv.total_transactions.getD 0 from by rw [hdc], n2, if_pos hb]
      · rw [show (docCombS x.2).total_amount = sv.total_amount.getD 0 from by
          rw [hdc], n3, if_pos hb]
      · rw [show (docCombS x.2).total_purchases = sv.purchases.getD 0 from by
          rw [hdc], n4, if_pos hb]
      · rw [show (docCombS x.2).total_payments = sv.payments.getD 0 from by
          rw [hdc], n5, if_pos hb]
      · intro hh
        rw [show ({ addCH bs (liveHolders (pairsOf x.2)) with
            total_statements :=
              (addCH bs (liveHolders (pairsOf x.2))).total_statements + 1
            total_transactions :=
              (addCH bs (liveHolders (pairsOf x.2))).total_transactions +
                sv.total_transactions.getD 0
            total_amount :=
              (addCH bs (liveHolders (pairsOf x.2))).total_amount +
                sv.total_amount.getD 0
            total_purchases :=
              (addCH bs (liveHolders (pairsOf x.2))).total_purchases +
                sv.purchases.getD 0
            total_payments :=
              (addCH bs (liveHolders (pairsOf x.2))).total_payments +
                sv.payments.getD 0 } : BankS).cardholders =
            (addCH bs (liveHolders (pairsOf x.2))).cardholders from rfl,
          mem_addCH, anyLive_iff_mem]
        constructor
        · rintro (hm | hm)
          · exact Or.inl hm
          · exact Or.inr ⟨hb, hm⟩
        · rintro (hm | ⟨-, hm⟩)
          · exact Or.inl hm
          · exact Or.inr hm
  · rw [if_neg hb]
    refine ⟨?_, ?_, ?_, ?_, ?_, ?_⟩ <;>
      first
        | rw [if_neg hb, add_zero]
        | (intro hh
           constructor
           · exact fun hm => Or.inl hm
           · rintro (hm | ⟨hbb, -⟩)
             · exact hm
             · exact absurd hbb hb)

/- ### Characterizations of combine_parsed_data at the initial state -/

theorem addCombS_zero_left (a : CombS) : addCombS ⟨0, 0, 0, 0, 0⟩ a = a := by
  obtain ⟨a1, a2, a3, a4, a5⟩ := a
  simp [addCombS]

theorem combine_ind (files : List FDoc) :
    (combine_parsed_data files).individual_statements = loadedF files := by
  unfold combine_parsed_data
  rw [filesFold_ind]
  rfl

theorem combine_cs (files : List FDoc) :
    (combine_parsed_data files).combined_summary = sumCombS (loadedF files) := by
  unfold combine_parsed_data
  rw [filesFold_cs]
  exact addCombS_zero_left _

theorem combine_ctx (files : List FDoc) (h : String) :
    (combine_parsed_data files).combined_transactions_by_cardholder h =
      (if (loadedF files).any (fun x => dLive x.2 h)
       then some (((loadedF files).map (fun x => dJoin x.2 h)).flatten)
       else none) := by
  unfold combine_parsed_data
  rw [filesFold_ctx]
  by_cases hany : (loadedF files).any (fun x => dLive x.2 h) = true
  · rw [if_pos hany, if_pos hany]
    rfl
  · rw [if_neg hany, if_neg hany]
    rfl

theorem combine_sbc (files : List FDoc) (h : String) :
    (combine_parsed_data files).summary_by_cardholder h =
      (if (loadedF files).any (fun x => dLive x.2 h)
       then some ((loadedF files).foldl (docBump h) zeroCardS)
       else none) := by
  unfold combine_parsed_data
  rw [filesFold_sbc]
  by_cases hany : (loadedF files).any (fun x => dLive x.2 h) = true
  · rw [if_pos hany, if_pos hany]
    rfl
  · rw [if_neg hany, if_neg hany]
    rfl

theorem combine_sbb (files : List FDoc) (b : String) :
    (combine_parsed_data files).summary_by_bank b =
      (if (loadedF files).any (fun x => bankOf x.2 == b)
       then some ((loadedF files).foldl (bankDocAcc b) zeroBankS)
       else none) := by
  unfold combine_parsed_data
  rw [filesFold_sbb]
  by_cases hany : (loadedF files).any (fun x => bankOf x.2 == b) = true
  · rw [if_pos hany, if_pos hany]
    rfl
  · rw [if_neg hany, if_neg hany]
    rfl

theorem combine_catG (files : List FDoc) (ct : String) :
    (combine_parsed_data files).category_totals ct =
      (if catMem (((loadedF files).map (fun x => gJoin x.2)).flatten) ct
       then some (lsum (entCat ct)
         (((loadedF files).map (fun x => gJoin x.2)).flatten))
       else none) := by
  unfold combine_parsed_data
  rw [filesFold_catG]
  show bumpMap (fun _ => none) _ ct = _
  unfold bumpMap
  by_cases hm : catMem (((loadedF files).map (fun x => gJoin x.2)).flatten) ct
    = true
  · rw [if_pos hm, if_pos hm,
      show ((none : Option ℚ).getD 0) = 0 from rfl, zero_add]
  · rw [if_neg hm, if_neg hm]

/- ### Permutation helper lemmas -/

theorem perm_any {α : Type} {l1 l2 : List α} (p : l1.Perm l2) (f : α → Bool) :
    l1.any f = l2.any f := by
  rw [Bool.eq_iff_iff]
  simp only [List.any_eq_true]
  constructor
  · rintro ⟨x, hx, hfx⟩
    exact ⟨x, p.mem_iff.mp hx, hfx⟩
  · rintro ⟨x, hx, hfx⟩
    exact ⟨x, p.mem_iff.mpr hx, hfx⟩

theorem perm_mapsum {α : Type} {l1 l2 : List α} (p : l1.Perm l2) (f : α → ℚ) :
    (l1.map f).sum = (l2.map f).sum :=
  (p.map f).sum_eq

/- ### Extensionality helpers -/

theorem cardS_ext {a b : CardS}
    (h1 : a.total_transactions = b.total_transactions)
    (h2 : a.total_amount = b.total_amount)
    (h3 : a.total_purchases = b.total_purchases)
    (h4 : a.total_payments = b.total_payments)
    (h5 : a.banks = b.banks)
    (h6 : a.category_totals = b.category_totals) : a = b := by
  cases a
  cases b
  simp only [CardS.mk.injEq]
  exact ⟨h1, h2, h3, h4, h5, h6⟩

/- ### Expansion of the bank accumulator fold -/

theorem bankFold_char (xs : List (String × CDoc)) (b : String) (bs : BankS) :
    ((xs.foldl (bankDocAcc b) bs).total_statements = bs.total_statements +
        (xs.map (fun x => if bankOf x.2 = b
          then (docCombS x.2).total_files_processed else 0)).sum) ∧
    ((xs.foldl (bankDocAcc b) bs).total_transactions = bs.total_transactions +
        (xs.map (fun x => if bankOf x.2 = b
          then (docCombS x.2).total_transactions else 0)).sum) ∧
    ((xs.foldl (bankDocAcc b) bs).total_amount = bs.total_amount +
        (xs.map (fun x => if bankOf x.2 = b
          then (docCombS x.2).total_amount else 0)).sum) ∧
    ((xs.foldl (bankDocAcc b) bs).total_purchases = bs.total_purchases +
        (xs.map (fun x => if bankOf x.2 = b
          then (docCombS x.2).total_purchases else 0)).sum) ∧
    ((xs.foldl (bankDocAcc b) bs).total_payments = bs.total_payments +
        (xs.map (fun x => if bankOf x.2 = b
          then (docCombS x.2).total_payments else 0)).sum) ∧
    (∀ hh : String, hh ∈ (xs.foldl (bankDocAcc b) bs).cardholders ↔
        hh ∈ bs.cardholders ∨
          ∃ x ∈ xs, bankOf x.2 = b ∧ anyLive hh (pairsOf x.2) = true) := by
  induction xs generalizing bs with
  | nil => simp
  | cons x rest ih =>
    obtain ⟨e1, e2, e3, e4, e5, e6⟩ := bankDocAcc_effect b bs x
    obtain ⟨i1, i2, i3, i4, i5, i6⟩ := ih (bankDocAcc b bs x)
    rw [List.foldl_cons]
    refine ⟨?_, ?_, ?_, ?_, ?_, ?_⟩
    · rw [i1, e1, List.map_cons, List.sum_cons, add_assoc]
    · rw [i2, e2, List.map_cons, List.sum_cons, add_assoc]
    · rw [i3, e3, List.map_cons, List.sum_cons, add_assoc]
    · rw [i4, e4, List.map_cons, List.sum_cons, add_assoc]
    · rw [i5, e5, List.map_cons, List.sum_cons, add_assoc]
    · intro hh
      rw [i6 hh, e6 hh]
      constructor
      · rintro ((hm | hm) | ⟨y, hy, hby, hly⟩)
        · exact Or.inl hm
        · exact Or.inr ⟨x, List.mem_cons_self .., hm.1, hm.2⟩
        · exact Or.inr ⟨y, List.mem_cons_of_mem _ hy, hby, hly⟩
      · rintro (hm | ⟨y, hy, hby, hly⟩)
        · exact Or.inl (Or.inl hm)
        · rcases List.mem_cons.mp hy with rfl | hy2
          · exact Or.inl (Or.inr ⟨hby, hly⟩)
          · exact Or.inr ⟨y, hy2, hby, hly⟩

/- ### Sums over flattened joins -/

theorem lsum_flatten (f : CEntry → ℚ) (ls : List (List CEntry)) :
    lsum f ls.flatten = (ls.map (lsum f)).sum := by
  induction ls with
  | nil => rfl
  | cons a as ih =>
    rw [List.flatten_cons, lsum_append, ih, List.map_cons, List.sum_cons]

theorem catMem_flatten (ct : String) (ls : List (List CEntry)) :
    catMem ls.flatten ct = ls.any (fun l => catMem l ct) := by
  induction ls with
  | nil => rfl
  | cons a as ih =>
    rw [List.flatten_cons, catMem_append, ih, List.any_cons]

theorem catMem_perm {a b : List CEntry} (p : a.Perm b) (ct : String) :
    catMem a ct = catMem b ct :=
  perm_any p _

theorem lsum_perm {a b : List CEntry} (p : a.Perm b) (f : CEntry → ℚ) :
    lsum f a = lsum f b :=
  (p.map f).sum_eq

/-- The per-holder accumulator fold is invariant under permutation of the
loaded documents. -/
theorem cardFold_perm {l1 l2 : List (String × CDoc)} (p : l1.Perm l2)
    (h : String) :
    l1.foldl (docBump h) zeroCardS = l2.foldl (docBump h) zeroCardS := by
  apply cardS_ext
  · rw [cardFold_cnt, cardFold_cnt, perm_mapsum p]
  · rw [cardFold_amt, cardFold_amt, perm_mapsum p]
  · rw [cardFold_pur, cardFold_pur, perm_mapsum p]
  · rw [cardFold_pay, cardFold_pay, perm_mapsum p]
  · funext b
    rw [cardFold_banks, cardFold_banks, perm_any p, perm_mapsum p,
      perm_mapsum p, perm_mapsum p, perm_mapsum p]
  · funext ct
    rw [cardFold_cats, cardFold_cats, perm_any p, perm_mapsum p]

/- ### Claim C5 -/

/-- Permutation relation on optional entry lists. -/
def optListPerm : Option (List CEntry) → Option (List CEntry) → Prop
  | none, none => True
  | some a, some b => a.Perm b
  | _, _ => False

/-- Agreement of two optional bank rollups up to the order of the
cardholders list. -/
def bankAgree : Option BankS → Option BankS → Prop
  | none, none => True
  | some x, some y =>
      x.total_statements = y.total_statements ∧
      x.total_transactions = y.total_transactions ∧
      x.total_amount = y.total_amount ∧
      x.total_purchases = y.total_purchases ∧
      x.total_payments = y.total_payments ∧
      (∀ h, h ∈ x.cardholders ↔ h ∈ y.cardholders)
  | _, _ => False

/-- First document of the C5 counterexample. -/
def fdA : FDoc := .ok ("a") {}

/-- Second document of the C5 counterexample. -/
def fdB : FDoc := .ok ("b") {}

/-- C5 counterexample: swapping two input documents changes the output of
combine_parsed_data, because individual_statements records the input
order. -/
theorem C5_counterexample :
    combine_parsed_data [fdA, fdB] ≠ combine_parsed_data [fdB, fdA] ∧
    (combine_parsed_data [fdA, fdB]).individual_statements ≠
      (combine_parsed_data [fdB, fdA]).individual_statements := by
  constructor
  · intro he
    have hind := congrArg Combined.individual_statements he
    revert hind
    decide
  · decide

/-- C5 amended: under a permutation of the input list, the combined
summary, the global category totals and the whole per-holder rollup map
are unchanged; the bank rollups are unchanged except that each cardholders
list may be reordered (equal as sets); individual_statements and each
holder's combined transaction list are permuted rather than equal. -/
theorem C5_amended (l1 l2 : List FDoc) (hp : l1.Perm l2) :
    (combine_parsed_data l1).combined_summary =
      (combine_parsed_data l2).combined_summary ∧
    (combine_parsed_data l1).category_totals =
      (combine_parsed_data l2).category_totals ∧
    (combine_parsed_data l1).summary_by_cardholder =
      (combine_parsed_data l2).summary_by_cardholder ∧
    (combine_parsed_data l1).individual_statements.Perm
      (combine_parsed_data l2).individual_statements ∧
    (∀ h, optListPerm
      ((combine_parsed_data l1).combined_transactions_by_cardholder h)
      ((combine_parsed_data l2).combined_transactions_by_cardholder h)) ∧
    (∀ b, bankAgree ((combine_parsed_data l1).summary_by_bank b)
      ((combine_parsed_data l2).summary_by_bank b)) := by
  have hl : (loadedF l1).Perm (loadedF l2) := hp.filterMap _
  refine ⟨?_, ?_, ?_, ?_, ?_, ?_⟩
  · rw [combine_cs, combine_cs]
    unfold sumCombS
    rw [perm_mapsum hl, perm_mapsum hl, perm_mapsum hl, perm_mapsum hl,
      perm_mapsum hl]
  · funext ct
    rw [combine_catG, combine_catG]
    have hG : ((((loadedF l1).map (fun x => gJoin x.2)).flatten)).Perm
        (((loadedF l2).map (fun x => gJoin x.2)).flatten) :=
      (hl.map _).flatten
    rw [catMem_perm hG, lsum_perm hG]
  · funext h
    rw [combine_sbc, combine_sbc, perm_any hl]
    by_cases hany : (loadedF l2).any (fun x => dLive x.2 h) = true
    · rw [if_pos hany, if_pos hany, cardFold_perm hl]
    · rw [if_neg hany, if_neg hany]
  · rw [combine_ind, combine_ind]
    exact hl
  · intro h
    rw [combine_ctx, combine_ctx, perm_any hl]
    by_cases hany : (loadedF l2).any (fun x => dLive x.2 h) = true
    · rw [if_pos hany, if_pos hany]
      show (((loadedF l1).map (fun x => dJoin x.2 h)).flatten).Perm
        (((loadedF l2).map (fun x => dJoin x.2 h)).flatten)
      exact (hl.map _).flatten
    · rw [if_neg hany, if_neg hany]
      trivial
  · intro b
    rw [combine_sbb, combine_sbb, perm_any hl]
    by_cases hany : (loadedF l2).any (fun x => bankOf x.2 == b) = true
    · rw [if_pos hany, if_pos hany]
      obtain ⟨a1, a2, a3, a4, a5, a6⟩ := bankFold_char (loadedF l1) b zeroBankS
      obtain ⟨c1, c2, c3, c4, c5, c6⟩ := bankFold_char (loadedF l2) b zeroBankS
      show _ ∧ _ ∧ _ ∧ _ ∧ _ ∧ _
      refine ⟨?_, ?_, ?_, ?_, ?_, ?_⟩
      · rw [a1, c1, perm_mapsum hl]
      · rw [a2, c2, perm_mapsum hl]
      · rw [a3, c3, perm_mapsum hl]
      · rw [a4, c4, perm_mapsum hl]
      · rw [a5, c5, perm_mapsum hl]
      · intro hh
        rw [a6 hh, c6 hh]
        constructor
        · rintro (hm | ⟨x, hx, hbx, hlx⟩)
          · exact Or.inl hm
          · exact Or.inr ⟨x, hl.mem_iff.mp hx, hbx, hlx⟩
        · rintro (hm | ⟨x, hx, hbx, hlx⟩)
          · exact Or.inl hm
          · exact Or.inr ⟨x, hl.mem_iff.mpr hx, hbx, hlx⟩
    · rw [if_neg hany, if_neg hany]
      trivial

/-- C5 witness: the amended theorem applied to a concrete two-document
swap. -/
theorem C5_witness :
    ([fdA, fdB] : List FDoc).Perm [fdB, fdA] ∧
    (combine_parsed_data [fdA, fdB]).combined_summary =
      (combine_parsed_data [fdB, fdA]).combined_summary :=
  ⟨List.Perm.swap fdB fdA [],
   (C5_amended [fdA, fdB] [fdB, fdA] (List.Perm.swap fdB fdA [])).1⟩

/- ### Claim C6 -/

/-- Per-document payment test document: one transaction of amount -50. -/
def payDoc : FDoc :=
  .ok ("p") { tx := some [("H", .lst [.tx { amount := some (-50) }])] }

/-- Per-document purchase test document: one transaction of amount 50. -/
def purDoc : FDoc :=
  .ok ("q") { tx := some [("H", .lst [.tx { amount := some 50 }])] }

/-- Extraction of a holder rollup from a some-result of the combine
characterization. -/
theorem sbc_some_elim {files : List FDoc} {h : String} {cs : CardS}
    (hcs : (combine_parsed_data files).summary_by_cardholder h = some cs) :
    (loadedF files).any (fun x => dLive x.2 h) = true ∧
      cs = (loadedF files).foldl (docBump h) zeroCardS := by
  rw [combine_sbc] at hcs
  by_cases hany : (loadedF files).any (fun x => dLive x.2 h) = true
  · rw [if_pos hany] at hcs
    exact ⟨hany, (Option.some_inj.mp hcs).symm⟩
  · rw [if_neg hany] at hcs
    exact Option.noConfusion hcs

/-- C6: in every holder rollup produced by combine_parsed_data, the
purchase total is the sum over the holder combined transaction list of the
non-negative amounts, the payment total is the sum of the absolute values
of the negative amounts (per entry: a dict transaction with amount below 0
contributes its absolute value to the payment side and nothing to the
purchase side, a non-negative amount contributes itself to the purchase
side and nothing to the payment side), the same split holds inside every
per-bank block, and concretely a single -50 transaction yields payments 50
and purchases 0 while a single 50 transaction yields purchases 50 and
payments 0. -/
theorem C6_sign_convention :
    (∀ q : ℚ,
      (q < 0 → entPay (.tx { amount := some q }) = |q| ∧
        entPur (.tx { amount := some q }) = 0) ∧
      (0 ≤ q → entPur (.tx { amount := some q }) = q ∧
        entPay (.tx { amount := some q }) = 0)) ∧
    (∀ (files : List FDoc) (h : String) (cs : CardS),
      (combine_parsed_data files).summary_by_cardholder h = some cs →
      ∃ l, (combine_parsed_data files).combined_transactions_by_cardholder h
          = some l ∧
        cs.total_purchases = lsum entPur l ∧
        cs.total_payments = lsum entPay l ∧
        (∀ b cb, cs.banks b = some cb →
          cb.total_purchases = ((loadedF files).map (fun x =>
            if bankOf x.2 = b then lsum entPur (dJoin x.2 h) else 0)).sum ∧
          cb.total_payments = ((loadedF files).map (fun x =>
            if bankOf x.2 = b then lsum entPay (dJoin x.2 h) else 0)).sum)) ∧
    (((combine_parsed_data [payDoc]).summary_by_cardholder ("H")).map
        CardS.total_payments = some 50 ∧
      ((combine_parsed_data [payDoc]).summary_by_cardholder ("H")).map
        CardS.total_purchases = some 0) ∧
    (((combine_parsed_data [purDoc]).summary_by_cardholder ("H")).map
        CardS.total_purchases = some 50 ∧
      ((combine_parsed_data [purDoc]).summary_by_cardholder ("H")).map
        CardS.total_payments = some 0) := by
  refine ⟨?_, ?_, ?_, ?_⟩
  · intro q
    constructor
    · intro hq
      constructor
      · show (if (some q).getD 0 < 0 then |(some q).getD 0| else 0) = |q|
        rw [show ((some q).getD 0) = q from rfl, if_pos hq]
      · show (if (some q).getD 0 < 0 then 0 else (some q).getD 0) = 0
        rw [show ((some q).getD 0) = q from rfl, if_pos hq]
    · intro hq
      have hq2 : ¬(q < 0) := not_lt.mpr hq
      constructor
      · show (if (some q).getD 0 < 0 then 0 else (some q).getD 0) = q
        rw [show ((some q).getD 0) = q from rfl, if_neg hq2]
      · show (if (some q).getD 0 < 0 then |(some q).getD 0| else 0) = 0
        rw [show ((some q).getD 0) = q from rfl, if_neg hq2]
  · intro files h cs hcs
    obtain ⟨hany, hcseq⟩ := sbc_some_elim hcs
    subst hcseq
    refine ⟨((loadedF files).map (fun x => dJoin x.2 h)).flatten, ?_, ?_, ?_, ?_⟩
    · rw [combine_ctx, if_pos hany]
    · rw [cardFold_pur, lsum_flatten, List.map_map]
      rw [show zeroCardS.total_purchases = 0 from rfl, zero_add]
      rfl
    · rw [cardFold_pay, lsum_flatten, List.map_map]
      rw [show zeroCardS.total_payments = 0 from rfl, zero_add]
      rfl
    · intro b cb hcb
      rw [cardFold_banks] at hcb
      by_cases hanyb : (loadedF files).any
          (fun x => dLive x.2 h && (bankOf x.2 == b)) = true
      · rw [if_pos hanyb] at hcb
        obtain rfl := Option.some_inj.mp hcb.symm
        constructor
        · show zeroCardBankS.total_purchases + _ = _
          rw [show zeroCardBankS.total_purchases = 0 from rfl, zero_add]
        · show zeroCardBankS.total_payments + _ = _
          rw [show zeroCardBankS.total_payments = 0 from rfl, zero_add]
      · rw [if_neg hanyb] at hcb
        exact Option.noConfusion hcb
  · constructor
    · rw [combine_sbc, if_pos (by decide), Option.map_some', cardFold_pay]
      simp [loadedF, payDoc, dJoin, pairsOf, pairsJoin, holderBlock,
        liveBlock, lsum, entPay, zeroCardS]
    · rw [combine_sbc, if_pos (by decide), Option.map_some', cardFold_pur]
      simp [loadedF, payDoc, dJoin, pairsOf, pairsJoin, holderBlock,
        liveBlock, lsum, entPur, zeroCardS]
  · constructor
    · rw [combine_sbc, if_pos (by decide), Option.map_some', cardFold_pur]
      simp [loadedF, purDoc, dJoin, pairsOf, pairsJoin, holderBlock,
        liveBlock, lsum, entPur, zeroCardS]
    · rw [combine_sbc, if_pos (by decide), Option.map_some', cardFold_pay]
      simp [loadedF, purDoc, dJoin, pairsOf, pairsJoin, holderBlock,
        liveBlock, lsum, entPay, zeroCardS]

/-- Holder rollup of the C6 witness document. -/
def csPay : CardS := (loadedF [payDoc]).foldl (docBump ("H")) zeroCardS

/-- C6 witness: the rollup theorem applied to the single -50 payment
document. -/
theorem C6_witness :
    ((combine_parsed_data [payDoc]).summary_by_cardholder ("H") = some csPay) ∧
    (∃ l, (combine_parsed_data [payDoc]).combined_transactions_by_cardholder
        ("H") = some l ∧
      csPay.total_purchases = lsum entPur l ∧
      csPay.total_payments = lsum entPay l ∧
      (∀ b cb, csPay.banks b = some cb →
        cb.total_purchases = ((loadedF [payDoc]).map (fun x =>
          if bankOf x.2 = b then lsum entPur (dJoin x.2 ("H")) else 0)).sum ∧
        cb.total_payments = ((loadedF [payDoc]).map (fun x =>
          if bankOf x.2 = b then lsum entPay (dJoin x.2 ("H")) else 0)).sum)) := by
  have hs : (combine_parsed_data [payDoc]).summary_by_cardholder ("H")
      = some csPay := by
    rw [combine_sbc, if_pos (by decide)]
    rfl
  exact ⟨hs, C6_sign_convention.2.1 [payDoc] ("H") csPay hs⟩

/- ### Claim C10 -/

/-- Boolean test that an entry is dict-shaped. -/
def isDictEntry : CEntry → Bool
  | .tx _ => true
  | .junk _ => false

theorem lsum_entCnt_countP (l : List CEntry) :
    lsum entCnt l = (l.countP isDictEntry : ℚ) := by
  induction l with
  | nil => simp [lsum_nil]
  | cons e rest ih =>
    rw [lsum_cons, ih, List.countP_cons]
    cases e with
    | tx t =>
      rw [show entCnt (.tx t) = 1 from rfl,
        show isDictEntry (CEntry.tx t) = true from rfl, if_pos rfl]
      push_cast
      ring
    | junk tag =>
      rw [show entCnt (.junk tag) = 0 from rfl,
        show isDictEntry (CEntry.junk tag) = false from rfl]
      simp

/-- Document with one dict transaction and one non-dict entry under the
same holder. -/
def fdocJ : FDoc :=
  .ok ("f") { tx := some [("H", .lst [.tx { amount := some 5 }, .junk 0])] }

/-- C10: every holder rollup counts exactly the dict-shaped entries of the
holder combined transaction list, which is never more than the length of
that list; on a list with one dict entry and one non-dict entry the count
is 1 while the list has length 2 (strictly smaller). -/
theorem C10_count_vs_length :
    (∀ (files : List FDoc) (h : String) (cs : CardS),
      (combine_parsed_data files).summary_by_cardholder h = some cs →
      ∃ l, (combine_parsed_data files).combined_transactions_by_cardholder h
          = some l ∧
        cs.total_transactions = (l.countP isDictEntry : ℚ) ∧
        l.countP isDictEntry ≤ l.length) ∧
    (((combine_parsed_data [fdocJ]).summary_by_cardholder ("H")).map
        CardS.total_transactions = some 1 ∧
      ((combine_parsed_data [fdocJ]).combined_transactions_by_cardholder
        ("H")).map List.length = some 2 ∧
      ((combine_parsed_data [fdocJ]).combined_transactions_by_cardholder
        ("H")).map (fun l => l.countP isDictEntry) = some 1) := by
  constructor
  · intro files h cs hcs
    obtain ⟨hany, hcseq⟩ := sbc_some_elim hcs
    subst hcseq
    refine ⟨((loadedF files).map (fun x => dJoin x.2 h)).flatten, ?_, ?_, ?_⟩
    · rw [combine_ctx, if_pos hany]
    · rw [cardFold_cnt, ← lsum_entCnt_countP, lsum_flatten, List.map_map]
      rw [show zeroCardS.total_transactions = 0 from rfl, zero_add]
      rfl
    · exact List.countP_le_length _
  · refine ⟨?_, by decide, by decide⟩
    rw [combine_sbc, if_pos (by decide), Option.map_some', cardFold_cnt]
    simp [loadedF, fdocJ, dJoin, pairsOf, pairsJoin, holderBlock,
      liveBlock, lsum, entCnt, zeroCardS]

/-- Holder rollup of the C10 witness document. -/
def csJ : CardS := (loadedF [fdocJ]).foldl (docBump ("H")) zeroCardS

/-- C10 witness: the count theorem applied to the mixed dict/non-dict
document. -/
theorem C10_witness :
    ((combine_parsed_data [fdocJ]).summary_by_cardholder ("H") = some csJ) ∧
    (∃ l, (combine_parsed_data [fdocJ]).combined_transactions_by_cardholder
        ("H") = some l ∧
      csJ.total_transactions = (l.countP isDictEntry : ℚ) ∧
      l.countP isDictEntry ≤ l.length) := by
  have hs : (combine_parsed_data [fdocJ]).summary_by_cardholder ("H")
      = some csJ := by
    rw [combine_sbc, if_pos (by decide)]
    rfl
  exact ⟨hs, C10_count_vs_length.1 [fdocJ] ("H") csJ hs⟩

end FinProc
